import Mathlib

/-!
Hexsopedia, entry routes.

A shallow embedding of the request handlers of `backend/routes/entries.js` and
`backend/routes/admin.js` over an in-memory document collection, followed by the
properties of the access-control rules, the entry lifecycle, search, pagination and
the role update.

Conventions of the embedding:

* An `ObjectId` is a natural number. Identifiers that do not parse as an ObjectId
  and failures of the storage layer (the `catch` branches, status 500) are outside
  the embedding, except where a handler can reach them from well-typed input.
* The collection is the list of stored documents in insertion order. MongoDB keeps
  `_id` unique; this is the predicate `WF`, preserved by every operation.
* `populate('author', 'username email')` only decorates the response with the
  author's username and email; the populated author's `_id` is the stored author
  reference, which is what the handlers compare.
* The schema of `models/Entry.js` is not among the sources. The timestamps it keeps
  are taken from the specification: both are set when the entry is created and
  `updatedAt` is refreshed each time the document is saved (`touch`).
* `String.prototype.toLowerCase` is a builtin of the language whose case tables are
  not part of the repository: it is the parameter `lower` of the definitions that
  call it. `asciiLower` is an instance of it for evaluating examples on ASCII text.
* `views` is a JavaScript number holding a non-negative integer; its arithmetic is
  exact below 2^53 and it is modelled as a natural number.
-/

namespace Hexsopedia

/-! ## Strings -/

/-- White space as removed by `String.prototype.trim` and matched by the character
class `\s` that the validator library trims with. -/
def isJsSpace (c : Char) : Bool :=
  let n := c.toNat
  (9 ≤ n && n ≤ 13) || n == 32 || n == 160 || n == 5760 || (8192 ≤ n && n ≤ 8202) ||
    n == 8232 || n == 8233 || n == 8239 || n == 8287 || n == 12288 || n == 65279

/-- Trimming on character lists: drop the white space at both ends. -/
def trimChars (cs : List Char) : List Char :=
  ((cs.dropWhile isJsSpace).reverse.dropWhile isJsSpace).reverse

/-- `s.trim()`. -/
def jsTrim (s : String) : String := ⟨trimChars s.data⟩

/-- Lowercasing of the letters A to Z, every other character kept: what
`s.toLowerCase()` gives on ASCII text. It is used to evaluate examples and to state
literal matching on ASCII text. -/
def asciiLower (s : String) : String := ⟨s.data.map Char.toLower⟩

/-- `cs.split(sep)` on character lists, for a one-character separator. -/
def splitChars (sep : Char) : List Char → List (List Char)
  | [] => [[]]
  | c :: cs =>
    if c = sep then [] :: splitChars sep cs
    else
      match splitChars sep cs with
      | [] => [[c]]
      | piece :: pieces => (c :: piece) :: pieces

/-- `s.split(',')`. -/
def splitComma (s : String) : List String := (splitChars ',' s.data).map String.mk

/-- `tags.map(tag => tag.trim().toLowerCase())`, with `lower` for `toLowerCase`. -/
def processTags (lower : String → String) (tags : List String) : List String :=
  tags.map fun tag => lower (jsTrim tag)

/-! ## Documents -/

/-- A user document; `req.user`, as resolved by the `auth` middleware, is one. -/
structure User where
  _id : Nat
  username : String
  email : String
  role : String
deriving DecidableEq, Repr

/-- An entry document, with the fields the route handlers refer to. -/
structure Entry where
  _id : Nat
  title : String
  content : String
  tags : List String
  author : Nat
  isPublic : Bool
  views : Nat
  createdAt : Nat
  updatedAt : Nat
deriving DecidableEq, Repr

/-- Modelled from the spec: the schema of `models/Entry.js` is not among the sources.
It keeps the timestamps of an entry: `createdAt` and `updatedAt` are set to the time
of creation, and `updatedAt` is refreshed to the time of the request each time the
document is saved. -/
def touch (clock : Nat) (doc : Entry) : Entry := { doc with updatedAt := clock }

/-- The entries collection. -/
abbrev Store := List Entry

/-- `Entry.findById(id)`. -/
def findById : Store → Nat → Option Entry
  | [], _ => none
  | e :: es, id => if e._id = id then some e else findById es id

/-- `doc.save()` for a document loaded from the collection: the stored document
with the same `_id` is replaced. -/
def save (doc : Entry) : Store → Store
  | [] => []
  | e :: es => if e._id = doc._id then doc :: es else e :: save doc es

/-- `doc.save()` for a new document: the insertion is refused when the `_id` is
already taken (duplicate key). -/
def insertNew (doc : Entry) (s : Store) : Option Store :=
  match findById s doc._id with
  | some _ => none
  | none => some (s ++ [doc])

/-- `Entry.findByIdAndDelete(id)`: removes one document with that `_id`. -/
def findByIdAndDelete : Store → Nat → Store
  | [], _ => []
  | e :: es, id => if e._id = id then es else e :: findByIdAndDelete es id

/-- `Entry.find({ author })`. -/
def findByAuthor (s : Store) (author : Nat) : List Entry :=
  s.filter fun e => e.author == author

/-- The identifiers of the stored documents are pairwise distinct. -/
def WF (s : Store) : Prop := (s.map Entry._id).Nodup

instance (s : Store) : Decidable (WF s) := by unfold WF; infer_instance

/-! ## Requests and responses -/

/-- The JSON body of a create or update request. Fields the handlers do not
destructure, such as `author`, are carried along and never read. -/
structure EntryBody where
  title : Option String
  content : Option String
  tags : Option (List String)
  isPublic : Option Bool
  author : Option Nat
deriving DecidableEq, Repr

/-- The JSON payload of a response. -/
inductive Payload where
  | message (text : String)
  | errors (messages : List String)
  | entry (doc : Entry)
  | messageEntry (text : String) (doc : Option Entry)
  | page (entries : List Entry) (totalPages : Option Nat) (currentPage : Nat) (totalEntries : Nat)
  | found (entries : List Entry) (count : Nat)
  | refusal
  | messageUser (text : String) (user : User)
deriving DecidableEq, Repr

/-- An HTTP response: status code and JSON payload. -/
structure Response where
  status : Nat
  payload : Payload
deriving DecidableEq, Repr

/-- The query primitives the routes hand over to the database: ordering by a sort
specification, and compilation of a `$regex` pattern with option `i` (a pattern
that does not compile makes the query fail). -/
structure Engine where
  sort : String → List Entry → List Entry
  regex : String → Option (String → Bool)

/-! ## Validators -/

/-- The chain `body(field).trim().notEmpty().withMessage(msg)`: the sanitised value
written back to the request, and the errors. -/
def requiredField (msg : String) (value : Option String) : Option String × List String :=
  let v := jsTrim (value.getD "")
  (some v, if v = "" then [msg] else [])

/-- The chain `body(field).optional().trim().notEmpty().withMessage(msg)`: a field
that is undefined is skipped, any other value is trimmed and must not be empty. -/
def optionalField (msg : String) (value : Option String) : Option String × List String :=
  match value with
  | none => (none, [])
  | some v => (some (jsTrim v), if jsTrim v = "" then [msg] else [])

/-- The validators of `router.post('/')`. -/
def validateCreate (body : EntryBody) : EntryBody × List String :=
  let t := requiredField "Title is required" body.title
  let c := requiredField "Content is required" body.content
  ({ body with title := t.1, content := c.1 }, t.2 ++ c.2)

/-- The validators of `router.put('/:id')`. -/
def validateUpdate (body : EntryBody) : EntryBody × List String :=
  let t := optionalField "Title cannot be empty" body.title
  let c := optionalField "Content cannot be empty" body.content
  ({ body with title := t.1, content := c.1 }, t.2 ++ c.2)

/-- JavaScript truthiness of an optional string: defined and not empty. -/
def truthy : Option String → Bool
  | none => false
  | some v => v != ""

/-! ## Middleware -/

/-- Modelled from the spec: the `adminAuth` middleware (`middleware/auth.js` is not
among the sources) lets a request through exactly when the principal's role is
`admin`; any other principal is answered with an authorization error. -/
def adminAuth (user : User) : Bool := user.role == "admin"

/-- The response of `adminAuth` to a principal that is not an admin: an
authorization error, whose body is written by the middleware. -/
def adminDenied : Response := ⟨403, .refusal⟩

/-! ## Handlers of `routes/entries.js` -/

/-- Ceiling of `count / limit` (`Math.ceil`); not a finite number when `limit` is 0. -/
def totalPages (count limit : Nat) : Option Nat :=
  if limit = 0 then none else some ((count + limit - 1) / limit)

/-- The slice `.limit(limit).skip(skip)` of an ordered result; a limit of 0 means no limit. -/
def slice (skip limit : Nat) (docs : List Entry) : List Entry :=
  if limit = 0 then docs.drop skip else (docs.drop skip).take limit

/-- The paginated answer shared by the two listings: the database rejects a
negative skip, which is what page 0 asks for when the limit is positive. -/
def paginate (eng : Engine) (errorText : String) (page limit : Nat) (sort : String)
    (docs : List Entry) : Response :=
  if page = 0 ∧ limit ≠ 0 then ⟨500, .message errorText⟩
  else
    ⟨200, .page (slice ((page - 1) * limit) limit (eng.sort sort docs))
      (totalPages docs.length limit) page docs.length⟩

/-- Handler `router.get('/')`: the principal's own entries, one page of them. -/
def listEntries (eng : Engine) (user : User) (page limit : Option Nat) (sort : Option String)
    (s : Store) : Response × Store :=
  (paginate eng "Error fetching entries" (page.getD 1) (limit.getD 10) (sort.getD "-createdAt")
    (findByAuthor s user._id), s)

/-- The text condition `$or: [{ title: $regex q }, { content: $regex q }]`. -/
def matchesText (test : String → Bool) (e : Entry) : Bool := test e.title || test e.content

/-- The tag condition `tags: { $in: tagArray }`. -/
def matchesTags (tagArray : List String) (e : Entry) : Bool := e.tags.any fun t => tagArray.contains t

/-- Handler `router.get('/search')`. -/
def searchEntries (lower : String → String) (eng : Engine) (user : User)
    (q tags : Option String) (s : Store) : Response × Store :=
  if !truthy q && !truthy tags then
    (⟨400, .message "Please provide a search query or tags"⟩, s)
  else
    let owned := findByAuthor s user._id
    let byText : Option (List Entry) :=
      if truthy q then (eng.regex (q.getD "")).map fun test => owned.filter (matchesText test)
      else some owned
    match byText with
    | none => (⟨500, .message "Error searching entries"⟩, s)
    | some docs =>
      let docs :=
        if truthy tags then
          docs.filter (matchesTags (processTags lower (splitComma (tags.getD ""))))
        else docs
      let entries := eng.sort "-createdAt" docs
      (⟨200, .found entries entries.length⟩, s)

/-- Handler `router.get('/:id')`; `clock` is the time of the request. -/
def getEntry (clock : Nat) (user : User) (id : Nat) (s : Store) : Response × Store :=
  match findById s id with
  | none => (⟨404, .message "Entry not found"⟩, s)
  | some entry =>
    if entry.author ≠ user._id ∧ !entry.isPublic then
      (⟨403, .message "Access denied"⟩, s)
    else
      let entry := touch clock { entry with views := entry.views + 1 }
      (⟨200, .entry entry⟩, save entry s)

/-- The document `new Entry({ title, content, tags: processedTags, author: req.user._id,
isPublic: isPublic || false })` built from a validated body; `views` starts at its
default 0 and both timestamps at the time of the request. -/
def newEntry (lower : String → String) (user : User) (newId now : Nat) (body : EntryBody) :
    Entry :=
  let processedTags := match body.tags with
    | some tags => processTags lower tags
    | none => []
  { _id := newId, title := body.title.getD "", content := body.content.getD "",
    tags := processedTags, author := user._id, isPublic := body.isPublic.getD false,
    views := 0, createdAt := now, updatedAt := now }

/-- Handler `router.post('/')`; `newId` is the ObjectId generated for the new
document and `now` the time of the request. -/
def createEntry (lower : String → String) (user : User) (newId now : Nat) (body : EntryBody)
    (s : Store) : Response × Store :=
  let checked := validateCreate body
  if checked.2 ≠ [] then (⟨400, .errors checked.2⟩, s)
  else
    let entry := newEntry lower user newId now checked.1
    match insertNew entry s with
    | none => (⟨500, .message "Error creating entry"⟩, s)
    | some s1 => (⟨201, .messageEntry "Entry created successfully" (findById s1 entry._id)⟩, s1)

/-- The assignments of the update handler: `if (title) ...`, `if (content) ...`,
`if (tags) ...`, `if (typeof isPublic !== 'undefined') ...`. -/
def applyUpdate (lower : String → String) (body : EntryBody) (entry : Entry) : Entry :=
  let entry := if truthy body.title then { entry with title := body.title.getD "" } else entry
  let entry := if truthy body.content then { entry with content := body.content.getD "" } else entry
  let entry := match body.tags with
    | some tags => { entry with tags := processTags lower tags }
    | none => entry
  match body.isPublic with
  | some isPublic => { entry with isPublic := isPublic }
  | none => entry

/-- Handler `router.put('/:id')`; `clock` is the time of the request. -/
def updateEntry (lower : String → String) (clock : Nat) (user : User) (id : Nat)
    (body : EntryBody) (s : Store) : Response × Store :=
  let checked := validateUpdate body
  if checked.2 ≠ [] then (⟨400, .errors checked.2⟩, s)
  else
    match findById s id with
    | none => (⟨404, .message "Entry not found"⟩, s)
    | some entry =>
      if entry.author ≠ user._id then (⟨403, .message "Access denied"⟩, s)
      else
        let entry := touch clock (applyUpdate lower checked.1 entry)
        let s1 := save entry s
        (⟨200, .messageEntry "Entry updated successfully" (findById s1 entry._id)⟩, s1)

/-- Handler `router.delete('/:id')`. -/
def deleteEntry (user : User) (id : Nat) (s : Store) : Response × Store :=
  match findById s id with
  | none => (⟨404, .message "Entry not found"⟩, s)
  | some entry =>
    if entry.author ≠ user._id then (⟨403, .message "Access denied"⟩, s)
    else (⟨200, .message "Entry deleted successfully"⟩, findByIdAndDelete s id)

/-! ## Handlers of `routes/admin.js` -/

/-- Handler `router.delete('/entries/:id')` behind `[auth, adminAuth]`. -/
def adminDeleteEntry (user : User) (id : Nat) (s : Store) : Response × Store :=
  if !adminAuth user then (adminDenied, s)
  else
    match findById s id with
    | none => (⟨404, .message "Entry not found"⟩, s)
    | some _ => (⟨200, .message "Entry deleted successfully by admin"⟩, findByIdAndDelete s id)

/-- Handler `router.get('/entries')` of `routes/admin.js` behind `[auth, adminAuth]`:
the entries of all users, one page of them. -/
def adminListEntries (eng : Engine) (user : User) (page limit : Option Nat)
    (sort : Option String) (s : Store) : Response × Store :=
  if !adminAuth user then (adminDenied, s)
  else
    (paginate eng "Error fetching entries" (page.getD 1) (limit.getD 20)
      (sort.getD "-createdAt") s, s)

/-- The users collection. -/
abbrev Users := List User

/-- `User.findById(id)`. -/
def findUserById : Users → Nat → Option User
  | [], _ => none
  | u :: us, id => if u._id = id then some u else findUserById us id

/-- `user.save()` for a user loaded from the collection: the stored user with the
same `_id` is replaced. -/
def saveUser (doc : User) : Users → Users
  | [] => []
  | u :: us => if u._id = doc._id then doc :: us else u :: saveUser doc us

/-- Handler `router.put('/users/:id/role')` behind `[auth, adminAuth]`; `role` is
the `role` field of the request body, absent when the body has none. -/
def updateUserRole (user : User) (id : Nat) (role : Option String) (users : Users) :
    Response × Users :=
  if !adminAuth user then (adminDenied, users)
  else
    let included := match role with
      | some r => ["user", "admin"].contains r
      | none => false
    if !included then (⟨400, .message "Invalid role"⟩, users)
    else
      match findUserById users id with
      | none => (⟨404, .message "User not found"⟩, users)
      | some found =>
        let found := { found with role := role.getD "" }
        (⟨200, .messageUser "User role updated successfully" found⟩, saveUser found users)

/-! ## Sequences of entry operations -/

/-- A request to one of the handlers of `routes/entries.js`. -/
inductive Op where
  | list (user : User) (page limit : Option Nat) (sort : Option String)
  | search (user : User) (q tags : Option String)
  | read (clock : Nat) (user : User) (id : Nat)
  | create (user : User) (newId now : Nat) (body : EntryBody)
  | update (clock : Nat) (user : User) (id : Nat) (body : EntryBody)
  | delete (user : User) (id : Nat)

/-- One request served on a store: the response and the store afterwards. -/
def step (lower : String → String) (eng : Engine) (op : Op) (s : Store) : Response × Store :=
  match op with
  | .list user page limit sort => listEntries eng user page limit sort s
  | .search user q tags => searchEntries lower eng user q tags s
  | .read clock user id => getEntry clock user id s
  | .create user newId now body => createEntry lower user newId now body s
  | .update clock user id body => updateEntry lower clock user id body s
  | .delete user id => deleteEntry user id s

/-- The store after serving a sequence of requests one after the other. -/
def run (lower : String → String) (eng : Engine) : List Op → Store → Store
  | [], s => s
  | op :: ops, s => run lower eng ops (step lower eng op s).2

/-- The entry `id` is in the store before, between and after the requests of a sequence. -/
def remains (lower : String → String) (eng : Engine) (id : Nat) : List Op → Store → Bool
  | [], s => (findById s id).isSome
  | op :: ops, s => (findById s id).isSome && remains lower eng id ops (step lower eng op s).2

/-- The stored views counter of the entry `id`, if there is one. -/
def viewsOf (s : Store) (id : Nat) : Option Nat := (findById s id).map Entry.views

/-- Whether the character list `text` begins with `pat`. -/
def beginsWith : List Char → List Char → Bool
  | [], _ => true
  | _ :: _, [] => false
  | p :: ps, t :: ts => p == t && beginsWith ps ts

/-- Whether `pat` occurs in `text` as a contiguous run of characters. -/
def occursIn (pat : List Char) : List Char → Bool
  | [] => beginsWith pat []
  | t :: ts => beginsWith pat (t :: ts) || occursIn pat ts

/-- An engine for evaluating examples: results are kept in store order and a
pattern is read as a literal, case-sensitive substring. -/
def plainEngine : Engine :=
  { sort := fun _ docs => docs
    regex := fun q => some fun text => occursIn q.data text.data }

/-! ## Notions used to state the properties -/

/-- The ordering primitive of an engine only reorders: what it returns is a
permutation of the documents it was given. -/
def Engine.Reorders (eng : Engine) : Prop :=
  ∀ (spec : String) (docs : List Entry), (eng.sort spec docs).Perm docs

/-- The entries carried by a response, none when it carries no list of entries. -/
def entriesOf (r : Response) : List Entry :=
  match r.payload with
  | .page entries _ _ _ => entries
  | .found entries _ => entries
  | _ => []

/-- A required field that is missing, empty, or made of white space only. -/
def isBlank : Option String → Bool
  | none => true
  | some v => v.data.all isJsSpace

/-- What the normal form of tags needs of lowercasing, and `String.prototype.toLowerCase`
provides: lowercasing a lowercased string changes nothing, and lowercasing a string
with no white space at either end gives a string with none. -/
def Lowercases (lower : String → String) : Prop :=
  (∀ s : String, lower (lower s) = lower s) ∧
  (∀ s : String, jsTrim s = s → jsTrim (lower s) = lower s)

/-- A tag in normal form: lowercase (lowercasing leaves it as it is), with no white
space at either end. -/
def isNormalTag (lower : String → String) (t : String) : Prop := lower t = t ∧ jsTrim t = t

/-- Every tag of every stored entry is in normal form. -/
def TagsNormal (lower : String → String) (s : Store) : Prop :=
  ∀ e ∈ s, ∀ t ∈ e.tags, isNormalTag lower t

/-- The ASCII text contains the ASCII term as a literal substring, letter case ignored. -/
def literalMatch (q text : String) : Bool :=
  occursIn (asciiLower q).data (asciiLower text).data

/-- The characters with a special meaning in a regular expression, the dot set
aside: backslash, `^`, `$`, `|`, `?`, `*`, `+` and the brackets. -/
def isOperatorChar (c : Char) : Bool :=
  [92, 94, 36, 124, 63, 42, 43, 40, 41, 91, 93, 123, 125].contains c.toNat

/-- One pattern character against one character of the text, letter case ignored:
a dot stands for any character but the line feed. -/
def matchChar (p t : Char) : Bool :=
  if p.toNat = 46 then t.toNat != 10 else p.toLower == t.toLower

/-- The pattern matches a run of characters at the start of the text. -/
def matchHere : List Char → List Char → Bool
  | [], _ => true
  | _ :: _, [] => false
  | p :: ps, t :: ts => matchChar p t && matchHere ps ts

/-- The pattern matches a run of characters somewhere in the text. -/
def matchAnywhere (pat : List Char) : List Char → Bool
  | [] => matchHere pat []
  | t :: ts => matchHere pat (t :: ts) || matchAnywhere pat ts

/-- An engine that reads the fragment of `$regex` patterns (option `i`) made of
ordinary characters and the dot; a pattern with any other operator is beyond it and
is answered as one that does not compile. Results are kept in store order. -/
def dotEngine : Engine :=
  { sort := fun _ docs => docs
    regex := fun q =>
      if q.data.any isOperatorChar then none
      else some fun text => matchAnywhere q.data text.data }

/-- A pattern made of ASCII characters other than NUL of which none is an operator,
the dot set aside: ordinary characters and dots. -/
def isDotPattern (q : String) : Bool :=
  q.data.all fun c => 0 < c.toNat && c.toNat < 128 && !isOperatorChar c

/-- A text made of ASCII characters. -/
def isAscii (text : String) : Bool := text.data.all fun c => c.toNat < 128

/-- The database reads a pattern of ordinary characters and dots as `$regex` with
option `i` does: it compiles it, and on an ASCII text the compiled test is passed
exactly when some run of characters of the text matches the pattern position by
position, a dot matching any character but the line feed and any other character
matching itself in either letter case. -/
def Engine.ReadsDots (eng : Engine) : Prop :=
  ∀ q : String, isDotPattern q = true →
    ∃ test : String → Bool, eng.regex q = some test ∧
      ∀ text : String, isAscii text = true → test text = matchAnywhere q.data text.data

/-! ## Sample data -/

/-- A user with the role `user`. -/
def alice : User := ⟨1, "alice", "alice@example.org", "user"⟩

/-- Another user with the role `user`. -/
def bob : User := ⟨2, "bob", "bob@example.org", "user"⟩

/-- A user with the role `admin`, author of no sample entry. -/
def carol : User := ⟨3, "carol", "carol@example.org", "admin"⟩

/-- A private entry of `alice`. -/
def note10 : Entry := ⟨10, "T", "C", ["x"], 1, false, 0, 100, 100⟩

/-- A public entry of `bob`. -/
def note11 : Entry := ⟨11, "P", "D", [], 2, true, 5, 101, 101⟩

/-- The three sample users. -/
def sampleUsers : Users := [alice, bob, carol]

/-- A store with the two sample entries. -/
def sampleStore : Store := [note10, note11]

/-- Entries of `alice` tagged `a`, `c` and `d`, and an entry of `bob` tagged `a`. -/
def taggedStore : Store :=
  [⟨20, "abc", "zzz", ["a"], 1, false, 0, 110, 110⟩, ⟨21, "Plan", "a.c", ["c", "q"], 1, false, 0,
      111, 111⟩,
   ⟨22, "Other", "text", ["d"], 1, true, 0, 112, 112⟩, ⟨23, "abc", "a.c", ["a"], 2, true, 0, 113,
       113⟩]

/-- A sequence of requests on the sample store: a denied read, a listing, a search,
an update by the author, two allowed reads, a create and the deletion of another entry. -/
def sampleOps : List Op :=
  [.read 300 bob 10, .list alice none none none, .search alice (some "T") none,
   .update 301 alice 10 ⟨none, some "C2", none, some true, none⟩, .read 302 bob 10,
   .read 303 alice 10,
   .create bob 12 200 ⟨some "N", some "M", none, none, none⟩, .delete bob 11]

variable {lower : String → String} {clock : Nat}

/-! ## The collection -/

theorem findById_id {s : Store} {id : Nat} {e : Entry} (h : findById s id = some e) :
    e._id = id := by
  induction s with
  | nil => simp [findById] at h
  | cons x xs ih =>
    by_cases hx : x._id = id
    · simp [findById, hx] at h
      subst h
      exact hx
    · simp [findById, hx] at h
      exact ih h

theorem findById_mem {s : Store} {id : Nat} {e : Entry} (h : findById s id = some e) :
    e ∈ s := by
  induction s with
  | nil => simp [findById] at h
  | cons x xs ih =>
    by_cases hx : x._id = id
    · simp [findById, hx] at h
      simp [h]
    · simp [findById, hx] at h
      exact List.mem_cons_of_mem _ (ih h)

theorem findById_none_iff (s : Store) (id : Nat) :
    findById s id = none ↔ id ∉ s.map Entry._id := by
  induction s with
  | nil => simp [findById]
  | cons x xs ih =>
    by_cases hx : x._id = id
    · simp [findById, hx]
    · have hx2 : ¬ id = x._id := fun h => hx h.symm
      simp [findById, hx, hx2, ih]

theorem findById_save_self {s : Store} {id : Nat} {e : Entry} (doc : Entry)
    (h : findById s id = some e) (hid : doc._id = id) :
    findById (save doc s) id = some doc := by
  induction s with
  | nil => simp [findById] at h
  | cons x xs ih =>
    by_cases hx : x._id = id
    · simp [save, findById, hx, hid]
    · simp [findById, hx] at h
      simp [save, findById, hx, hid, ih h]

theorem findById_save_other (doc : Entry) (s : Store) {id : Nat} (hid : id ≠ doc._id) :
    findById (save doc s) id = findById s id := by
  induction s with
  | nil => simp [save]
  | cons x xs ih =>
    by_cases hx : x._id = doc._id
    · have h1 : ¬ x._id = id := fun h => hid (h ▸ hx)
      have h2 : ¬ doc._id = id := fun h => hid h.symm
      simp [save, findById, hx, h1, h2]
    · by_cases hy : x._id = id
      · simp only [save, findById, if_neg hx, if_pos hy]
      · simp only [save, findById, if_neg hx, if_neg hy, ih]

theorem map_id_save {s : Store} (doc : Entry) : (save doc s).map Entry._id = s.map Entry._id := by
  induction s with
  | nil => simp [save]
  | cons x xs ih =>
    by_cases hx : x._id = doc._id
    · simp [save, hx]
    · simp [save, hx, ih]

theorem findById_delete_other (s : Store) {id other : Nat} (h : other ≠ id) :
    findById (findByIdAndDelete s id) other = findById s other := by
  induction s with
  | nil => simp [findByIdAndDelete]
  | cons x xs ih =>
    by_cases hx : x._id = id
    · have h1 : ¬ x._id = other := fun h2 => h (h2 ▸ hx)
      simp only [findByIdAndDelete, findById, if_pos hx, if_neg h1]
    · by_cases hy : x._id = other
      · simp only [findByIdAndDelete, findById, if_neg hx, if_pos hy]
      · simp only [findByIdAndDelete, findById, if_neg hx, if_neg hy, ih]

theorem findById_delete_self {s : Store} (id : Nat) (hwf : WF s) :
    findById (findByIdAndDelete s id) id = none := by
  induction s with
  | nil => simp [findByIdAndDelete, findById]
  | cons x xs ih =>
    have hw : x._id ∉ xs.map Entry._id ∧ WF xs := by simpa [WF] using hwf
    by_cases hx : x._id = id
    · simp only [findByIdAndDelete, hx, if_true]
      exact (findById_none_iff xs id).2 (hx ▸ hw.1)
    · simp [findByIdAndDelete, findById, hx, ih hw.2]

theorem mem_delete_iff {s : Store} (id : Nat) (hwf : WF s) (x : Entry) :
    x ∈ findByIdAndDelete s id ↔ x ∈ s ∧ x._id ≠ id := by
  induction s with
  | nil => simp [findByIdAndDelete]
  | cons y ys ih =>
    have hw : y._id ∉ ys.map Entry._id ∧ WF ys := by simpa [WF] using hwf
    by_cases hy : y._id = id
    · simp only [findByIdAndDelete, hy, if_true, List.mem_cons]
      constructor
      · intro hx
        refine ⟨Or.inr hx, fun hxid => hw.1 ?_⟩
        rw [hy, ← hxid]
        exact List.mem_map_of_mem _ hx
      · rintro ⟨hx | hx, hne⟩
        · exact absurd (hx ▸ hy) hne
        · exact hx
    · simp only [findByIdAndDelete, hy, if_false, List.mem_cons, ih hw.2]
      constructor
      · rintro (hx | hx)
        · exact ⟨Or.inl hx, hx ▸ hy⟩
        · exact ⟨Or.inr hx.1, hx.2⟩
      · rintro ⟨hx | hx, hne⟩
        · exact Or.inl hx
        · exact Or.inr ⟨hx, hne⟩

theorem findById_of_mem {s : Store} {x : Entry} (hwf : WF s) (hx : x ∈ s) :
    findById s x._id = some x := by
  induction s with
  | nil => simp at hx
  | cons y ys ih =>
    have hw : y._id ∉ ys.map Entry._id ∧ WF ys := by simpa [WF] using hwf
    rcases List.mem_cons.1 hx with hxy | hxy
    · simp [findById, hxy]
    · have hne : ¬ y._id = x._id := fun hy =>
        hw.1 (hy ▸ List.mem_map_of_mem Entry._id hxy)
      simp only [findById, if_neg hne]
      exact ih hw.2 hxy

theorem delete_sublist (s : Store) (id : Nat) : (findByIdAndDelete s id).Sublist s := by
  induction s with
  | nil => simp [findByIdAndDelete]
  | cons x xs ih =>
    by_cases hx : x._id = id
    · simp [findByIdAndDelete, hx]
    · simp [findByIdAndDelete, hx, ih]

theorem WF_save {s : Store} (doc : Entry) (hwf : WF s) : WF (save doc s) := by
  unfold WF at *
  rw [map_id_save]
  exact hwf

theorem WF_delete {s : Store} (id : Nat) (hwf : WF s) : WF (findByIdAndDelete s id) := by
  unfold WF at *
  exact List.Nodup.sublist ((delete_sublist s id).map _) hwf

theorem WF_insertNew {s s1 : Store} {doc : Entry} (hwf : WF s) (h : insertNew doc s = some s1) :
    WF s1 := by
  unfold insertNew at h
  cases hf : findById s doc._id with
  | some e => simp [hf] at h
  | none =>
    simp [hf] at h
    subst h
    have hn := (findById_none_iff s doc._id).1 hf
    unfold WF at *
    rw [List.map_append, List.nodup_append]
    refine ⟨hwf, by simp, ?_⟩
    intro a ha hb
    simp at hb
    exact hn (hb ▸ ha)

theorem findById_append_of_some {s : Store} {id : Nat} {e : Entry} (t : Store)
    (h : findById s id = some e) : findById (s ++ t) id = some e := by
  induction s with
  | nil => simp [findById] at h
  | cons x xs ih =>
    by_cases hx : x._id = id
    · simpa [findById, hx] using h
    · simp [findById, hx] at h
      simp [findById, hx, ih h]

theorem findById_append_of_none {s : Store} {id : Nat} (t : Store)
    (h : findById s id = none) : findById (s ++ t) id = findById t id := by
  induction s with
  | nil => simp
  | cons x xs ih =>
    by_cases hx : x._id = id
    · simp [findById, hx] at h
    · simp [findById, hx] at h
      simp [findById, hx, ih h]

/-! ## Handlers, case by case -/

theorem getEntry_absent {s : Store} {id : Nat} (user : User) (h : findById s id = none) :
    getEntry clock user id s = (⟨404, .message "Entry not found"⟩, s) := by
  simp [getEntry, h]

theorem getEntry_denied {s : Store} {id : Nat} {e : Entry} (user : User)
    (h : findById s id = some e) (ha : e.author ≠ user._id) (hp : e.isPublic = false) :
    getEntry clock user id s = (⟨403, .message "Access denied"⟩, s) := by
  simp [getEntry, h, ha, hp]

theorem getEntry_allowed {s : Store} {id : Nat} {e : Entry} (user : User)
    (h : findById s id = some e) (hok : e.author = user._id ∨ e.isPublic = true) :
    getEntry clock user id s =
      (⟨200, .entry { e with views := e.views + 1, updatedAt := clock }⟩,
          save { e with views := e.views + 1, updatedAt := clock } s) := by
  rcases hok with hok | hok <;> simp [getEntry, touch, h, hok]

theorem updateEntry_invalid {body : EntryBody} (user : User) (id : Nat) (s : Store)
    (hv : (validateUpdate body).2 ≠ []) :
    updateEntry lower clock user id body s = (⟨400, .errors (validateUpdate body).2⟩, s) := by
  simp [updateEntry, hv]

theorem updateEntry_absent {s : Store} {id : Nat} {body : EntryBody} (user : User)
    (hv : (validateUpdate body).2 = []) (h : findById s id = none) :
    updateEntry lower clock user id body s = (⟨404, .message "Entry not found"⟩, s) := by
  simp [updateEntry, hv, h]

theorem updateEntry_denied {s : Store} {id : Nat} {e : Entry} {body : EntryBody} (user : User)
    (hv : (validateUpdate body).2 = []) (h : findById s id = some e) (ha : e.author ≠ user._id) :
    updateEntry lower clock user id body s = (⟨403, .message "Access denied"⟩, s) := by
  simp [updateEntry, hv, h, ha]

theorem updateEntry_allowed {s : Store} {id : Nat} {e : Entry} {body : EntryBody} (user : User)
    (hv : (validateUpdate body).2 = []) (h : findById s id = some e) (ha : e.author = user._id) :
    updateEntry lower clock user id body s =
      (⟨200, .messageEntry "Entry updated successfully"
          (findById (save (touch clock (applyUpdate lower (validateUpdate body).1 e)) s)
            (touch clock (applyUpdate lower (validateUpdate body).1 e))._id)⟩,
        save (touch clock (applyUpdate lower (validateUpdate body).1 e)) s) := by
  simp [updateEntry, hv, h, ha]

theorem deleteEntry_absent {s : Store} {id : Nat} (user : User) (h : findById s id = none) :
    deleteEntry user id s = (⟨404, .message "Entry not found"⟩, s) := by
  simp [deleteEntry, h]

theorem deleteEntry_denied {s : Store} {id : Nat} {e : Entry} (user : User)
    (h : findById s id = some e) (ha : e.author ≠ user._id) :
    deleteEntry user id s = (⟨403, .message "Access denied"⟩, s) := by
  simp [deleteEntry, h, ha]

theorem deleteEntry_allowed {s : Store} {id : Nat} {e : Entry} (user : User)
    (h : findById s id = some e) (ha : e.author = user._id) :
    deleteEntry user id s =
      (⟨200, .message "Entry deleted successfully"⟩, findByIdAndDelete s id) := by
  simp [deleteEntry, h, ha]

@[simp] theorem touch_id (t : Nat) (e : Entry) : (touch t e)._id = e._id := rfl

@[simp] theorem touch_title (t : Nat) (e : Entry) : (touch t e).title = e.title := rfl

@[simp] theorem touch_content (t : Nat) (e : Entry) : (touch t e).content = e.content := rfl

@[simp] theorem touch_tags (t : Nat) (e : Entry) : (touch t e).tags = e.tags := rfl

@[simp] theorem touch_author (t : Nat) (e : Entry) : (touch t e).author = e.author := rfl

@[simp] theorem touch_isPublic (t : Nat) (e : Entry) : (touch t e).isPublic = e.isPublic := rfl

@[simp] theorem touch_views (t : Nat) (e : Entry) : (touch t e).views = e.views := rfl

@[simp] theorem touch_updatedAt (t : Nat) (e : Entry) : (touch t e).updatedAt = t := rfl

theorem applyUpdate_id (body : EntryBody) (e : Entry) : (applyUpdate lower body e)._id = e._id := by
  unfold applyUpdate
  cases body.tags <;> cases body.isPublic <;> simp <;> split_ifs <;> rfl

theorem applyUpdate_author (body : EntryBody) (e : Entry) :
    (applyUpdate lower body e).author = e.author := by
  unfold applyUpdate
  cases body.tags <;> cases body.isPublic <;> simp <;> split_ifs <;> rfl

theorem applyUpdate_views (body : EntryBody) (e : Entry) :
    (applyUpdate lower body e).views = e.views := by
  unfold applyUpdate
  cases body.tags <;> cases body.isPublic <;> simp <;> split_ifs <;> rfl

/-! ## Access control -/

/-- C1: for an existing entry, read-by-id answers 200 exactly when the principal is
the author or the entry is public, and answers 403 "Access denied" in every other
case; so a private entry is never read by a non-author and a public entry is
read by any principal. -/
theorem getEntry_status_iff (clock : Nat) (user : User) (id : Nat) (s : Store) (e : Entry)
    (h : findById s id = some e) :
    ((getEntry clock user id s).1.status = 200 ↔ (e.author = user._id ∨ e.isPublic = true)) ∧
    (¬ (e.author = user._id ∨ e.isPublic = true) →
      (getEntry clock user id s).1 = ⟨403, .message "Access denied"⟩) ∧
    (e.isPublic = false → e.author ≠ user._id → (getEntry clock user id s).1.status = 403) ∧
    (e.isPublic = true → (getEntry clock user id s).1.status = 200) := by
  by_cases hok : e.author = user._id ∨ e.isPublic = true
  · rw [getEntry_allowed user h hok]
    refine ⟨by simp [hok], fun hn => absurd hok hn, ?_, fun _ => rfl⟩
    intro hp ha
    rcases hok with hok | hok
    · exact absurd hok ha
    · simp [hp] at hok
  · have ha : e.author ≠ user._id := fun h1 => hok (Or.inl h1)
    have hp : e.isPublic = false := by
      cases hq : e.isPublic
      · rfl
      · exact absurd (Or.inr hq) hok
    rw [getEntry_denied user h ha hp]
    refine ⟨by simp [hok], fun _ => rfl, fun _ _ => rfl, ?_⟩
    intro hq
    simp [hp] at hq

/-- Witness for C1: `bob` is refused the private entry of `alice`. -/
theorem getEntry_status_iff_witness :
    findById sampleStore 10 = some note10 ∧ (getEntry 300 bob 10 sampleStore).1.status = 403 :=
  ⟨by decide, (getEntry_status_iff 300 bob 10 sampleStore note10 (by decide)).2.2.1
    (by decide) (by decide)⟩

/-- C2: for an existing entry and a payload that passes validation, the update is
carried out (200) exactly when the principal is the author; any other principal,
whatever the role, is answered 403 and the store is left as it was; the role of the
principal never changes the outcome. -/
theorem updateEntry_author_only (lower : String → String) (clock : Nat) (user : User) (id : Nat)
    (body : EntryBody) (s : Store)
    (e : Entry) (h : findById s id = some e) (hv : (validateUpdate body).2 = []) :
    ((updateEntry lower clock user id body s).1.status = 200 ↔ e.author = user._id) ∧
    (e.author ≠ user._id →
      updateEntry lower clock user id body s = (⟨403, .message "Access denied"⟩, s)) ∧
    (e.author ≠ user._id → user.role = "admin" →
      (updateEntry lower clock user id body s).1.status = 403 ∧
          (updateEntry lower clock user id body s).2 = s) ∧
    (∀ role : String,
      updateEntry lower clock { user with role := role } id body s =
          updateEntry lower clock user id body s) := by
  refine ⟨?_, fun ha => updateEntry_denied user hv h ha, ?_, fun role => rfl⟩
  · by_cases ha : e.author = user._id
    · rw [updateEntry_allowed user hv h ha]
      simp [ha]
    · rw [updateEntry_denied user hv h ha]
      simp [ha]
  · intro ha _
    rw [updateEntry_denied user hv h ha]
    exact ⟨rfl, rfl⟩

/-- Witness for C2: the admin `carol` may not update the entry of `alice`. -/
theorem updateEntry_author_only_witness :
    findById sampleStore 10 = some note10 ∧
    updateEntry asciiLower 300 carol 10 ⟨some "New", none, none, some true, none⟩ sampleStore =
      (⟨403, .message "Access denied"⟩, sampleStore) :=
  ⟨by decide, (updateEntry_author_only asciiLower 300 carol 10 ⟨some "New", none, none, some true,
      none⟩
    sampleStore note10 (by decide) (by decide)).2.1 (by decide)⟩

/-- C3, counterexample: the admin `carol`, who is not the author of the stored entry
10, is answered 403 by `DELETE /entries/:id` and the entry stays in the store, so
on this route "author or admin" is not what decides. -/
theorem deleteEntry_admin_refused :
    findById sampleStore 10 = some note10 ∧ carol.role = "admin" ∧
    deleteEntry carol 10 sampleStore = (⟨403, .message "Access denied"⟩, sampleStore) ∧
    ¬ ((deleteEntry carol 10 sampleStore).1.status = 200 ↔
        (note10.author = carol._id ∨ carol.role = "admin")) := by
  decide

/-- C3, amended: for an existing entry, `DELETE /entries/:id` removes the entry
(200) exactly when the principal is its author, whatever the principal's role; any
other principal is answered 403 and the store is left as it was. -/
theorem deleteEntry_author_only (user : User) (id : Nat) (s : Store) (e : Entry)
    (h : findById s id = some e) :
    ((deleteEntry user id s).1.status = 200 ↔ e.author = user._id) ∧
    (e.author = user._id →
      deleteEntry user id s =
        (⟨200, .message "Entry deleted successfully"⟩, findByIdAndDelete s id)) ∧
    (e.author = user._id → WF s → findById (deleteEntry user id s).2 id = none) ∧
    (e.author ≠ user._id →
      deleteEntry user id s = (⟨403, .message "Access denied"⟩, s)) ∧
    (∀ role : String, deleteEntry { user with role := role } id s = deleteEntry user id s) := by
  refine ⟨?_, fun ha => deleteEntry_allowed user h ha, ?_,
    fun ha => deleteEntry_denied user h ha, fun role => rfl⟩
  · by_cases ha : e.author = user._id
    · rw [deleteEntry_allowed user h ha]
      simp [ha]
    · rw [deleteEntry_denied user h ha]
      simp [ha]
  · intro ha hwf
    rw [deleteEntry_allowed user h ha]
    exact findById_delete_self id hwf

/-- Witness for the amended C3: `alice` deletes her own entry. -/
theorem deleteEntry_author_only_witness :
    findById sampleStore 10 = some note10 ∧
    deleteEntry alice 10 sampleStore =
      (⟨200, .message "Entry deleted successfully"⟩, [note11]) :=
  ⟨by decide, (deleteEntry_author_only alice 10 sampleStore note10 (by decide)).2.1
    (by decide)⟩

/-- C4: for an existing entry, public or private, a principal who is neither its
author nor an admin deletes nothing: `DELETE /entries/:id` answers 403, the store
is left as it was and still holds the entry; the admin route, closed to a
principal who is not an admin, leaves the store as it was too. -/
theorem deleteEntry_stranger_refused (user : User) (id : Nat) (s : Store) (e : Entry)
    (h : findById s id = some e) (ha : e.author ≠ user._id) (hr : user.role ≠ "admin") :
    deleteEntry user id s = (⟨403, .message "Access denied"⟩, s) ∧
    findById (deleteEntry user id s).2 id = some e ∧
    (adminDeleteEntry user id s).2 = s := by
  have hd := deleteEntry_denied user h ha
  refine ⟨hd, by rw [hd]; exact h, ?_⟩
  simp [adminDeleteEntry, adminAuth, hr]

/-- Witness for C4: `alice` cannot delete the public entry of `bob`. -/
theorem deleteEntry_stranger_refused_witness :
    findById sampleStore 11 = some note11 ∧ note11.isPublic = true ∧
    deleteEntry alice 11 sampleStore = (⟨403, .message "Access denied"⟩, sampleStore) :=
  ⟨by decide, by decide,
    (deleteEntry_stranger_refused alice 11 sampleStore note11 (by decide) (by decide)
      (by decide)).1⟩

/-- C5: read-by-id, update (with a payload that passes validation) and delete look
the entry up first: when there is none the answer is 404 for every principal; when
there is one and the permission check fails the answer is 403; in both cases the
store is left exactly as it was. -/
theorem existence_before_permission (lower : String → String) (clock : Nat) (user : User)
    (id : Nat) (body : EntryBody) (s : Store)
    (hv : (validateUpdate body).2 = []) :
    (findById s id = none →
      getEntry clock user id s = (⟨404, .message "Entry not found"⟩, s) ∧
      updateEntry lower clock user id body s = (⟨404, .message "Entry not found"⟩, s) ∧
      deleteEntry user id s = (⟨404, .message "Entry not found"⟩, s)) ∧
    (∀ e : Entry, findById s id = some e → e.author ≠ user._id →
      (e.isPublic = false → getEntry clock user id s = (⟨403, .message "Access denied"⟩, s)) ∧
      updateEntry lower clock user id body s = (⟨403, .message "Access denied"⟩, s) ∧
      deleteEntry user id s = (⟨403, .message "Access denied"⟩, s)) := by
  constructor
  · intro h
    exact ⟨getEntry_absent user h, updateEntry_absent user hv h, deleteEntry_absent user h⟩
  · intro e h ha
    exact ⟨fun hp => getEntry_denied user h ha hp, updateEntry_denied user hv h ha,
      deleteEntry_denied user h ha⟩

/-- Witness for C5: an identifier that is not stored gives 404 to `bob`, and the
private entry of `alice` gives him 403, on each of the three routes. -/
theorem existence_before_permission_witness :
    (getEntry 300 bob 99 sampleStore = (⟨404, .message "Entry not found"⟩, sampleStore) ∧
      updateEntry asciiLower 300 bob 99 ⟨some "New", none, none, none, none⟩ sampleStore =
        (⟨404, .message "Entry not found"⟩, sampleStore) ∧
      deleteEntry bob 99 sampleStore = (⟨404, .message "Entry not found"⟩, sampleStore)) ∧
    (getEntry 300 bob 10 sampleStore = (⟨403, .message "Access denied"⟩, sampleStore) ∧
      updateEntry asciiLower 300 bob 10 ⟨some "New", none, none, none, none⟩ sampleStore =
        (⟨403, .message "Access denied"⟩, sampleStore) ∧
      deleteEntry bob 10 sampleStore = (⟨403, .message "Access denied"⟩, sampleStore)) :=
  ⟨(existence_before_permission asciiLower 300 bob 99 ⟨some "New", none, none, none,
      none⟩ sampleStore
      (by decide)).1 (by decide),
    ((existence_before_permission asciiLower 300 bob 10 ⟨some "New", none, none, none,
        none⟩ sampleStore
      (by decide)).2 note10 (by decide) (by decide)).1 (by decide),
    ((existence_before_permission asciiLower 300 bob 10 ⟨some "New", none, none, none,
        none⟩ sampleStore
      (by decide)).2 note10 (by decide) (by decide)).2⟩

/-- C6: for an admin principal, `DELETE /admin/entries/:id` removes the entry with
that identifier whoever its author is and whatever its visibility: afterwards a
lookup of the identifier finds nothing, every other identifier is looked up as
before, and the store holds exactly the documents it held except that one; when no
entry has the identifier the answer is 404 and the store is left as it was. -/
theorem adminDeleteEntry_removes (user : User) (id : Nat) (s : Store)
    (hadmin : user.role = "admin") (hwf : WF s) :
    (∀ e : Entry, findById s id = some e →
      (adminDeleteEntry user id s).1 = ⟨200, .message "Entry deleted successfully by admin"⟩ ∧
      findById (adminDeleteEntry user id s).2 id = none ∧
      (∀ other : Nat, other ≠ id →
        findById (adminDeleteEntry user id s).2 other = findById s other) ∧
      (∀ x : Entry, x ∈ (adminDeleteEntry user id s).2 ↔ x ∈ s ∧ x ≠ e)) ∧
    (findById s id = none →
      adminDeleteEntry user id s = (⟨404, .message "Entry not found"⟩, s)) := by
  constructor
  · intro e h
    have hrun : adminDeleteEntry user id s =
        (⟨200, .message "Entry deleted successfully by admin"⟩, findByIdAndDelete s id) := by
      simp [adminDeleteEntry, adminAuth, hadmin, h]
    rw [hrun]
    refine ⟨rfl, findById_delete_self id hwf, fun other ho => findById_delete_other s ho, ?_⟩
    intro x
    rw [mem_delete_iff id hwf x]
    constructor
    · rintro ⟨hx, hne⟩
      exact ⟨hx, fun hxe => hne (hxe ▸ findById_id h)⟩
    · rintro ⟨hx, hne⟩
      refine ⟨hx, fun hxid => hne ?_⟩
      have hx2 : findById s id = some x := hxid ▸ findById_of_mem hwf hx
      rw [h] at hx2
      exact (Option.some.inj hx2).symm
  · intro h
    simp [adminDeleteEntry, adminAuth, hadmin, h]

/-- Witness for C6: the admin `carol` removes the private entry of `alice`. -/
theorem adminDeleteEntry_removes_witness :
    carol.role = "admin" ∧ WF sampleStore ∧
    adminDeleteEntry carol 10 sampleStore =
      (⟨200, .message "Entry deleted successfully by admin"⟩, [note11]) ∧
    findById (adminDeleteEntry carol 10 sampleStore).2 10 = none ∧
    adminDeleteEntry carol 99 sampleStore = (⟨404, .message "Entry not found"⟩, sampleStore) :=
  ⟨by decide, by decide, by decide,
    ((adminDeleteEntry_removes carol 10 sampleStore (by decide) (by decide)).1 note10
      (by decide)).2.1,
    (adminDeleteEntry_removes carol 99 sampleStore (by decide) (by decide)).2 (by decide)⟩

/-- C7, counterexample: `alice` reads the public entry 11 of `bob` at time 300: the
read is answered 200 and the stored entry has `updatedAt` 300 where it had 101, so a
field other than `views` has changed. -/
theorem getEntry_refreshes_updatedAt :
    findById sampleStore 11 = some note11 ∧ note11.updatedAt = 101 ∧
    (getEntry 300 alice 11 sampleStore).1.status = 200 ∧
    (findById (getEntry 300 alice 11 sampleStore).2 11).map Entry.updatedAt = some 300 ∧
    (findById (getEntry 300 alice 11 sampleStore).2 11).map Entry.updatedAt ≠
      (findById sampleStore 11).map Entry.updatedAt := by
  decide

/-- C7, amended: a read-by-id that is allowed (by the author, or by anyone when the
entry is public) stores the entry with `views` one higher, `updatedAt` refreshed to
the time of the read since the document is saved, and every other field (identifier,
title, content, tags, author, visibility, `createdAt`) as it was; it returns that
document and leaves the lookup of every other identifier as it was; a second read
by the same principal adds one more. -/
theorem getEntry_increments_views (clock : Nat) (user : User) (id : Nat) (s : Store) (e : Entry)
    (h : findById s id = some e) (hok : e.author = user._id ∨ e.isPublic = true) :
    (getEntry clock user id s).1 =
      ⟨200, .entry { e with views := e.views + 1, updatedAt := clock }⟩ ∧
    findById (getEntry clock user id s).2 id =
      some { e with views := e.views + 1, updatedAt := clock } ∧
    (∀ other : Nat, other ≠ id → findById (getEntry clock user id s).2 other = findById s other) ∧
    ((getEntry clock user id s).2.map Entry._id = s.map Entry._id) ∧
    (∀ later : Nat, findById (getEntry later user id (getEntry clock user id s).2).2 id =
      some { e with views := e.views + 2, updatedAt := later }) := by
  have hid := findById_id h
  have h1 : findById (save { e with views := e.views + 1, updatedAt := clock } s) id =
      some { e with views := e.views + 1, updatedAt := clock } := findById_save_self _ h hid
  rw [getEntry_allowed user h hok]
  refine ⟨rfl, h1, ?_, map_id_save _, ?_⟩
  · intro other ho
    exact findById_save_other _ s (by simpa [hid] using ho)
  · intro later
    rw [getEntry_allowed user h1 hok]
    exact findById_save_self _ h1 hid

/-- Witness for the amended C7: `alice` reads the public entry of `bob` at time 300;
its views go from 5 to 6 and its `updatedAt` from 101 to 300. -/
theorem getEntry_increments_views_witness :
    findById sampleStore 11 = some note11 ∧ note11.views = 5 ∧
    (getEntry 300 alice 11 sampleStore).1 =
      ⟨200, .entry { note11 with views := 6, updatedAt := 300 }⟩ :=
  ⟨by decide, by decide,
    (getEntry_increments_views 300 alice 11 sampleStore note11 (by decide) (by decide)).1⟩

/-! ## The views counter -/

theorem listEntries_store (eng : Engine) (user : User) (page limit : Option Nat)
    (sort : Option String) (s : Store) : (listEntries eng user page limit sort s).2 = s := rfl

theorem searchEntries_store (eng : Engine) (user : User) (q tags : Option String) (s : Store) :
    (searchEntries lower eng user q tags s).2 = s := by
  unfold searchEntries
  split
  · rfl
  · dsimp only
    split <;> rfl

theorem createEntry_invalid {body : EntryBody} (user : User) (newId now : Nat) (s : Store)
    (hv : (validateCreate body).2 ≠ []) :
    createEntry lower user newId now body s = (⟨400, .errors (validateCreate body).2⟩, s) := by
  simp [createEntry, hv]

theorem createEntry_duplicate {body : EntryBody} {s : Store} {newId : Nat} {e : Entry}
    (user : User) (now : Nat) (hv : (validateCreate body).2 = [])
    (h : findById s newId = some e) :
    createEntry lower user newId now body s = (⟨500, .message "Error creating entry"⟩, s) := by
  have hid : (newEntry lower user newId now (validateCreate body).1)._id = newId := rfl
  simp [createEntry, hv, insertNew, hid, h]

theorem createEntry_created {body : EntryBody} {s : Store} {newId : Nat}
    (user : User) (now : Nat) (hv : (validateCreate body).2 = [])
    (h : findById s newId = none) :
    createEntry lower user newId now body s =
      (⟨201, .messageEntry "Entry created successfully"
          (some (newEntry lower user newId now (validateCreate body).1))⟩,
        s ++ [newEntry lower user newId now (validateCreate body).1]) := by
  have hid : (newEntry lower user newId now (validateCreate body).1)._id = newId := rfl
  have hf : findById (s ++ [newEntry lower user newId now (validateCreate body).1]) newId =
      some (newEntry lower user newId now (validateCreate body).1) := by
    rw [findById_append_of_none _ h]
    simp [findById, hid]
  simp [createEntry, hv, insertNew, hid, h, hf]

theorem createEntry_store (user : User) (newId now : Nat) (body : EntryBody) (s : Store) :
    (createEntry lower user newId now body s).2 = s ∨
    (findById s newId = none ∧
      (createEntry lower user newId now body s).2 =
        s ++ [newEntry lower user newId now (validateCreate body).1]) := by
  by_cases hv : (validateCreate body).2 = []
  · cases h : findById s newId with
    | none => exact Or.inr ⟨rfl, by rw [createEntry_created user now hv h]⟩
    | some e => exact Or.inl (by rw [createEntry_duplicate user now hv h])
  · exact Or.inl (by rw [createEntry_invalid user newId now s hv])

theorem updateEntry_store (user : User) (id : Nat) (body : EntryBody) (s : Store) :
    (updateEntry lower clock user id body s).2 = s ∨
    ∃ e : Entry, findById s id = some e ∧
      (updateEntry lower clock user id body s).2 =
        save (touch clock (applyUpdate lower (validateUpdate body).1 e)) s := by
  by_cases hv : (validateUpdate body).2 = []
  · cases h : findById s id with
    | none => exact Or.inl (by rw [updateEntry_absent user hv h])
    | some e =>
      by_cases ha : e.author = user._id
      · exact Or.inr ⟨e, rfl, by rw [updateEntry_allowed user hv h ha]⟩
      · exact Or.inl (by rw [updateEntry_denied user hv h ha])
  · exact Or.inl (by rw [updateEntry_invalid user id s hv])

theorem deleteEntry_store (user : User) (id : Nat) (s : Store) :
    (deleteEntry user id s).2 = s ∨ (deleteEntry user id s).2 = findByIdAndDelete s id := by
  cases h : findById s id with
  | none => exact Or.inl (by rw [deleteEntry_absent user h])
  | some e =>
    by_cases ha : e.author = user._id
    · exact Or.inr (by rw [deleteEntry_allowed user h ha])
    · exact Or.inl (by rw [deleteEntry_denied user h ha])

theorem step_WF (eng : Engine) (op : Op) {s : Store} (hwf : WF s) : WF (step lower eng op s).2 := by
  cases op with
  | list user page limit sort => exact hwf
  | search user q tags =>
    show WF (searchEntries lower eng user q tags s).2
    rw [searchEntries_store]
    exact hwf
  | read clock user id =>
    show WF (getEntry clock user id s).2
    cases h : findById s id with
    | none => rw [getEntry_absent user h]; exact hwf
    | some e =>
      by_cases hok : e.author = user._id ∨ e.isPublic = true
      · rw [getEntry_allowed user h hok]
        exact WF_save _ hwf
      · have ha : e.author ≠ user._id := fun h1 => hok (Or.inl h1)
        have hp : e.isPublic = false := by
          cases hq : e.isPublic
          · rfl
          · exact absurd (Or.inr hq) hok
        rw [getEntry_denied user h ha hp]
        exact hwf
  | create user newId now body =>
    show WF (createEntry lower user newId now body s).2
    rcases createEntry_store user newId now body s with h | ⟨hn, h⟩
    · rw [h]; exact hwf
    · rw [h]
      have hid : (newEntry lower user newId now (validateCreate body).1)._id = newId := rfl
      have hins : insertNew (newEntry lower user newId now (validateCreate body).1) s =
          some (s ++ [newEntry lower user newId now (validateCreate body).1]) := by
        simp [insertNew, hid, hn]
      exact WF_insertNew hwf hins
  | update clock user id body =>
    show WF (updateEntry lower clock user id body s).2
    rcases updateEntry_store user id body s with h | ⟨e, _, h⟩
    · rw [h]; exact hwf
    · rw [h]; exact WF_save _ hwf
  | delete user id =>
    show WF (deleteEntry user id s).2
    rcases deleteEntry_store user id s with h | h
    · rw [h]; exact hwf
    · rw [h]; exact WF_delete id hwf

theorem step_views (eng : Engine) (op : Op) {s : Store} (hwf : WF s) (id v w : Nat)
    (hv : viewsOf s id = some v) (hw : viewsOf (step lower eng op s).2 id = some w) :
    w = v ∨ (w = v + 1 ∧
      ∃ (clock : Nat) (user : User), op = .read clock user id ∧
        (step lower eng op s).1.status = 200) := by
  have same : ∀ t : Store, (step lower eng op s).2 = t → findById t id = findById s id → w = v := by
    intro t ht hf
    rw [ht] at hw
    unfold viewsOf at hv hw
    rw [hf, hv] at hw
    exact (Option.some.inj hw).symm
  cases op with
  | list user page limit sort => exact Or.inl (same s rfl rfl)
  | search user q tags => exact Or.inl (same s (searchEntries_store eng user q tags s) rfl)
  | read clock user rid =>
    cases h : findById s rid with
    | none => exact Or.inl (same s (by show (getEntry clock user rid s).2 = s
                                       rw [getEntry_absent user h]) rfl)
    | some e =>
      by_cases hok : e.author = user._id ∨ e.isPublic = true
      · have hrun : getEntry clock user rid s = _ := getEntry_allowed user h hok
        by_cases hid : id = rid
        · subst hid
          right
          have hid1 : e._id = id := findById_id h
          have hid2 : ({ e with views := e.views + 1, updatedAt := clock } : Entry)._id = id := hid1
          have hs := findById_save_self _ h hid2
          have hw2 : viewsOf (getEntry clock user id s).2 id = some w := hw
          rw [hrun] at hw2
          unfold viewsOf at hv hw2
          rw [h] at hv
          rw [hs] at hw2
          simp at hv hw2
          refine ⟨by omega, clock, user, rfl, ?_⟩
          show (getEntry clock user id s).1.status = 200
          rw [hrun]
        · left
          refine same _ (by show (getEntry clock user rid s).2 = _
                            rw [hrun]) (findById_save_other _ s ?_)
          simpa [findById_id h] using hid
      · have ha : e.author ≠ user._id := fun h1 => hok (Or.inl h1)
        have hp : e.isPublic = false := by
          cases hq : e.isPublic
          · rfl
          · exact absurd (Or.inr hq) hok
        exact Or.inl (same s (by show (getEntry clock user rid s).2 = s
                                 rw [getEntry_denied user h ha hp]) rfl)
  | create user newId now body =>
    left
    rcases createEntry_store user newId now body s with h | ⟨_, h⟩
    · exact same s h rfl
    · refine same _ h ?_
      cases hf : findById s id with
      | none => simp [viewsOf, hf] at hv
      | some e => exact findById_append_of_some _ hf
  | update clock user uid body =>
    left
    rcases updateEntry_store user uid body s with h | ⟨e, hf, h⟩
    · exact same s h rfl
    · by_cases hid : id = uid
      · subst hid
        have hs := findById_save_self (touch clock (applyUpdate lower (validateUpdate body).1 e)) hf
          ((applyUpdate_id _ e).trans (findById_id hf))
        have hw2 : viewsOf (updateEntry lower clock user id body s).2 id = some w := hw
        rw [h] at hw2
        unfold viewsOf at hv hw2
        rw [hf] at hv
        rw [hs] at hw2
        simp [applyUpdate_views] at hv hw2
        omega
      · refine same _ h (findById_save_other _ s ?_)
        simpa [applyUpdate_id, findById_id hf] using hid
  | delete user did =>
    left
    rcases deleteEntry_store user did s with h | h
    · exact same s h rfl
    · by_cases hid : id = did
      · subst hid
        have hw2 : viewsOf (deleteEntry user id s).2 id = some w := hw
        rw [h] at hw2
        simp [viewsOf, findById_delete_self id hwf] at hw2
      · exact same _ h (findById_delete_other s hid)

theorem remains_now {eng : Engine} {id : Nat} {ops : List Op} {s : Store}
    (h : remains lower eng id ops s = true) : (findById s id).isSome = true := by
  cases ops with
  | nil => exact h
  | cons op ops =>
    simp only [remains, Bool.and_eq_true] at h
    exact h.1

theorem run_WF (eng : Engine) (ops : List Op) : ∀ s : Store, WF s → WF (run lower eng ops s) := by
  induction ops with
  | nil => intro s hwf; exact hwf
  | cons op ops ih => intro s hwf; exact ih _ (step_WF eng op hwf)

theorem run_views_le (eng : Engine) (id : Nat) (ops : List Op) :
    ∀ (s : Store) (v w : Nat), WF s → remains lower eng id ops s = true → viewsOf s id = some v →
      viewsOf (run lower eng ops s) id = some w → v ≤ w := by
  induction ops with
  | nil =>
    intro s v w _ _ hv hw
    simp only [run] at hw
    rw [hv] at hw
    exact Nat.le_of_eq (Option.some.inj hw)
  | cons op ops ih =>
    intro s v w hwf hr hv hw
    simp only [remains, Bool.and_eq_true] at hr
    have hnext := remains_now hr.2
    obtain ⟨e, he⟩ := Option.isSome_iff_exists.1 hnext
    have hmid : viewsOf (step lower eng op s).2 id = some e.views := by simp [viewsOf, he]
    have h1 : v ≤ e.views := by
      rcases step_views eng op hwf id v e.views hv hmid with h | ⟨h, _⟩ <;> omega
    exact Nat.le_trans h1 (ih _ e.views w (step_WF eng op hwf) hr.2 hmid hw)

theorem updateEntry_views (user : User) (uid : Nat) (body : EntryBody) (s : Store) (id : Nat) :
    viewsOf (updateEntry lower clock user uid body s).2 id = viewsOf s id := by
  rcases updateEntry_store user uid body s with h | ⟨e, hf, h⟩
  · rw [h]
  · rw [h]
    have hid : (touch clock (applyUpdate lower (validateUpdate body).1 e))._id = uid :=
      (applyUpdate_id _ e).trans (findById_id hf)
    by_cases hu : id = uid
    · subst hu
      unfold viewsOf
      rw [findById_save_self _ hf hid, hf]
      simp [applyUpdate_views]
    · unfold viewsOf
      rw [findById_save_other _ s (by rw [hid]; exact hu)]

/-- C8: from a store with distinct identifiers, a request to any entry route (list,
search, read-by-id, create, update, delete) never lowers the views counter of an
entry that is still stored afterwards, and the counter differs only when the
request is a read-by-id of that entry answered 200, in which case it is one higher;
listings, searches, updates and reads answered otherwise than 200 leave every
counter as it was; over any sequence of requests during which the entry stays in
the store the counter at the end is at least the counter at the start. -/
theorem views_grow_only_by_reads (lower : String → String) (eng : Engine) (s : Store)
    (hwf : WF s) :
    (∀ (op : Op) (id v w : Nat), viewsOf s id = some v →
      viewsOf (step lower eng op s).2 id = some w →
        v ≤ w ∧ (w ≠ v → w = v + 1 ∧
          ∃ (clock : Nat) (user : User), op = .read clock user id ∧
            (step lower eng op s).1.status = 200)) ∧
    (∀ (user : User) (page limit : Option Nat) (sort : Option String) (id : Nat),
      viewsOf (listEntries eng user page limit sort s).2 id = viewsOf s id) ∧
    (∀ (user : User) (q tags : Option String) (id : Nat),
      viewsOf (searchEntries lower eng user q tags s).2 id = viewsOf s id) ∧
    (∀ (clock : Nat) (user : User) (uid : Nat) (body : EntryBody) (id : Nat),
      viewsOf (updateEntry lower clock user uid body s).2 id = viewsOf s id) ∧
    (∀ (clock : Nat) (user : User) (rid : Nat), (getEntry clock user rid s).1.status ≠ 200 →
      (getEntry clock user rid s).2 = s) ∧
    (∀ (ops : List Op) (id v w : Nat), remains lower eng id ops s = true → viewsOf s id = some v →
      viewsOf (run lower eng ops s) id = some w → v ≤ w) := by
  refine ⟨?_, fun _ _ _ _ _ => rfl, ?_,
    fun clock user uid body id => updateEntry_views user uid body s id, ?_, ?_⟩
  · intro op id v w hv hw
    rcases step_views eng op hwf id v w hv hw with h | ⟨h, hread⟩
    · exact ⟨Nat.le_of_eq h.symm, fun hne => absurd h hne⟩
    · exact ⟨by omega, fun _ => ⟨h, hread⟩⟩
  · intro user q tags id
    rw [searchEntries_store]
  · intro clock user rid hst
    cases h : findById s rid with
    | none => rw [getEntry_absent user h]
    | some e =>
      by_cases hok : e.author = user._id ∨ e.isPublic = true
      · rw [getEntry_allowed user h hok] at hst
        exact absurd rfl hst
      · have ha : e.author ≠ user._id := fun h1 => hok (Or.inl h1)
        have hp : e.isPublic = false := by
          cases hq : e.isPublic
          · rfl
          · exact absurd (Or.inr hq) hok
        rw [getEntry_denied user h ha hp]
  · intro ops id v w hr hv hw
    exact run_views_le eng id ops s v w hwf hr hv hw

/-- Witness for C8: over the sample sequence the entry 10 stays stored and its
counter goes from 0 to 2, the number of reads answered 200. -/
theorem views_grow_only_by_reads_witness :
    WF sampleStore ∧ remains asciiLower plainEngine 10 sampleOps sampleStore = true ∧
    viewsOf sampleStore 10 = some 0 ∧
    viewsOf (run asciiLower plainEngine sampleOps sampleStore) 10 = some 2 ∧
    0 ≤ 2 :=
  ⟨by decide, by decide, by decide, by decide,
    (views_grow_only_by_reads asciiLower plainEngine sampleStore (by decide)).2.2.2.2.2
      sampleOps 10 0 2
      (by decide) (by decide) (by decide)⟩

/-! ## The author reference -/

theorem getEntry_store (user : User) (id : Nat) (s : Store) :
    (getEntry clock user id s).2 = s ∨
    ∃ e : Entry, findById s id = some e ∧
      (getEntry clock user id s).2 =
        save { e with views := e.views + 1, updatedAt := clock } s := by
  cases h : findById s id with
  | none => exact Or.inl (by rw [getEntry_absent user h])
  | some e =>
    by_cases hok : e.author = user._id ∨ e.isPublic = true
    · exact Or.inr ⟨e, rfl, by rw [getEntry_allowed user h hok]⟩
    · have ha : e.author ≠ user._id := fun h1 => hok (Or.inl h1)
      have hp : e.isPublic = false := by
        cases hq : e.isPublic
        · rfl
        · exact absurd (Or.inr hq) hok
      exact Or.inl (by rw [getEntry_denied user h ha hp])

theorem author_after_save {s : Store} {id : Nat} {e : Entry} (doc : Entry)
    (hf : findById s id = some e) (hid : doc._id = id) (hau : doc.author = e.author)
    (other : Nat) :
    (findById (save doc s) other).map Entry.author = (findById s other).map Entry.author := by
  by_cases ho : other = id
  · subst ho
    rw [findById_save_self doc hf hid, hf]
    simp [hau]
  · rw [findById_save_other doc s (by rw [hid]; exact ho)]

/-- C9: a create answered 201 stores the new entry with the requesting principal as
author, whatever the payload carries (an `author` field included), and leaves every
other identifier as it was; and for every payload and every principal, neither an
update nor a read-by-id changes the author stored under any identifier. -/
theorem author_never_reassigned (lower : String → String) (clock : Nat) (user : User)
    (body : EntryBody) (s : Store) :
    (∀ newId now : Nat, (createEntry lower user newId now body s).1.status = 201 →
      (findById (createEntry lower user newId now body s).2 newId).map Entry.author =
          some user._id ∧
      ∀ other : Nat, other ≠ newId →
        findById (createEntry lower user newId now body s).2 other = findById s other) ∧
    (∀ id other : Nat,
      (findById (updateEntry lower clock user id body s).2 other).map Entry.author =
        (findById s other).map Entry.author) ∧
    (∀ id other : Nat,
      (findById (getEntry clock user id s).2 other).map Entry.author =
        (findById s other).map Entry.author) := by
  refine ⟨?_, ?_, ?_⟩
  · intro newId now hst
    by_cases hv : (validateCreate body).2 = []
    · cases h : findById s newId with
      | some e =>
        rw [createEntry_duplicate user now hv h] at hst
        simp at hst
      | none =>
        rw [createEntry_created user now hv h]
        have hid : (newEntry lower user newId now (validateCreate body).1)._id = newId := rfl
        constructor
        · show (findById (s ++ [newEntry lower user newId now (validateCreate body).1]) newId).map
            Entry.author = some user._id
          rw [findById_append_of_none _ h]
          simp [findById, hid, newEntry]
        · intro other ho
          show findById (s ++ [newEntry lower user newId now (validateCreate body).1]) other =
            findById s other
          cases hf : findById s other with
          | some e => exact findById_append_of_some _ hf
          | none =>
            rw [findById_append_of_none _ hf]
            have hne : ¬ (newEntry lower user newId now (validateCreate body).1)._id = other := by
              rw [hid]
              exact fun h2 => ho h2.symm
            simp only [findById, if_neg hne]
    · rw [createEntry_invalid user newId now s hv] at hst
      simp at hst
  · intro id other
    rcases updateEntry_store user id body s with h | ⟨e, hf, h⟩
    · rw [h]
    · rw [h]
      exact author_after_save (touch clock (applyUpdate lower (validateUpdate body).1 e)) hf
        ((applyUpdate_id _ e).trans (findById_id hf)) (applyUpdate_author _ e) other
  · intro id other
    rcases getEntry_store user id s with h | ⟨e, hf, h⟩
    · rw [h]
    · rw [h]
      have hid1 : e._id = id := findById_id hf
      have hid2 : ({ e with views := e.views + 1, updatedAt := clock } : Entry)._id = id := hid1
      have hau : ({ e with views := e.views + 1, updatedAt := clock } : Entry).author =
          e.author := rfl
      exact author_after_save { e with views := e.views + 1, updatedAt := clock } hf hid2 hau other

/-- Witness for C9: `alice` creates an entry whose payload names `bob` as author;
the stored author is `alice`. -/
theorem author_never_reassigned_witness :
    (createEntry asciiLower alice 12 200 ⟨some "N", some "M", none, none,
        some 2⟩ sampleStore).1.status = 201 ∧
    (findById (createEntry asciiLower alice 12 200 ⟨some "N", some "M", none, none,
        some 2⟩ sampleStore).2
      12).map Entry.author = some alice._id :=
  ⟨by decide,
    ((author_never_reassigned asciiLower 300 alice ⟨some "N", some "M", none, none,
        some 2⟩ sampleStore).1
      12 200 (by decide)).1⟩

/-! ## Empty fields in an update -/

/-- C10, counterexample: the author `alice` updates her entry with an empty title
together with new content, tags and visibility: the answer is 400 "Title cannot be
empty" and nothing is applied; likewise for an empty content. -/
theorem updateEntry_empty_title_rejected :
    findById sampleStore 10 = some note10 ∧ note10.author = alice._id ∧
    updateEntry asciiLower 300 alice 10 ⟨some "", some "new", some ["a"], some true,
        none⟩ sampleStore =
      (⟨400, .errors ["Title cannot be empty"]⟩, sampleStore) ∧
    updateEntry asciiLower 300 alice 10 ⟨some "new", some "", some ["a"], some true,
        none⟩ sampleStore =
      (⟨400, .errors ["Content cannot be empty"]⟩, sampleStore) := by
  decide

/-- C10, amended: an update whose payload carries a title equal to the empty
string, or a content equal to the empty string, is rejected by the validators with
400 and the corresponding message, for every principal and identifier, and the
store is left as it was, so that no supplied field is applied. -/
theorem updateEntry_empty_field_rejected (lower : String → String) (clock : Nat) (user : User)
    (id : Nat) (body : EntryBody) (s : Store)
    (h : body.title = some "" ∨ body.content = some "") :
    updateEntry lower clock user id body s = (⟨400, .errors (validateUpdate body).2⟩, s) ∧
    (body.title = some "" → "Title cannot be empty" ∈ (validateUpdate body).2) ∧
    (body.content = some "" → "Content cannot be empty" ∈ (validateUpdate body).2) := by
  have hempty : jsTrim "" = "" := by decide
  have ht : body.title = some "" → "Title cannot be empty" ∈ (validateUpdate body).2 := by
    intro h1
    simp [validateUpdate, optionalField, h1, hempty]
  have hc : body.content = some "" → "Content cannot be empty" ∈ (validateUpdate body).2 := by
    intro h1
    simp [validateUpdate, optionalField, h1, hempty]
  refine ⟨updateEntry_invalid user id s ?_, ht, hc⟩
  intro hnil
  rcases h with h | h
  · have := ht h
    rw [hnil] at this
    simp at this
  · have := hc h
    rw [hnil] at this
    simp at this

/-- Witness for the amended C10: the author's update with an empty title. -/
theorem updateEntry_empty_field_rejected_witness :
    updateEntry asciiLower 300 alice 10 ⟨some "", some "new", some ["a"], some true,
        none⟩ sampleStore =
      (⟨400, .errors (validateUpdate ⟨some "", some "new", some ["a"], some true, none⟩).2⟩,
        sampleStore) :=
  (updateEntry_empty_field_rejected asciiLower 300 alice 10 ⟨some "", some "new", some ["a"],
      some true, none⟩
    sampleStore (by decide)).1

/-! ## Fields written by an update -/

theorem validateUpdate_title (body : EntryBody) :
    (validateUpdate body).1.title = body.title.map jsTrim := by
  cases h : body.title <;> simp [validateUpdate, optionalField, h]

theorem validateUpdate_content (body : EntryBody) :
    (validateUpdate body).1.content = body.content.map jsTrim := by
  cases h : body.content <;> simp [validateUpdate, optionalField, h]

theorem validateUpdate_tags (body : EntryBody) : (validateUpdate body).1.tags = body.tags := rfl

theorem validateUpdate_isPublic (body : EntryBody) :
    (validateUpdate body).1.isPublic = body.isPublic := rfl

theorem validateUpdate_ok_iff (body : EntryBody) :
    (validateUpdate body).2 = [] ↔
      (∀ t, body.title = some t → jsTrim t ≠ "") ∧ (∀ c, body.content = some c →
          jsTrim c ≠ "") := by
  cases ht : body.title <;> cases hc : body.content <;>
    simp [validateUpdate, optionalField, ht, hc]

theorem applyUpdate_title (body : EntryBody) (e : Entry) :
    (applyUpdate lower body e).title =
        if truthy body.title then body.title.getD "" else e.title := by
  unfold applyUpdate
  cases body.tags <;> cases body.isPublic <;> simp <;> split_ifs <;> rfl

theorem applyUpdate_content (body : EntryBody) (e : Entry) :
    (applyUpdate lower body e).content =
      if truthy body.content then body.content.getD "" else e.content := by
  unfold applyUpdate
  cases body.tags <;> cases body.isPublic <;> simp <;> split_ifs <;> rfl

theorem applyUpdate_tags (body : EntryBody) (e : Entry) :
    (applyUpdate lower body e).tags = (body.tags.map (processTags lower)).getD e.tags := by
  unfold applyUpdate
  cases body.tags <;> cases body.isPublic <;> simp <;> split_ifs <;> rfl

theorem applyUpdate_isPublic (body : EntryBody) (e : Entry) :
    (applyUpdate lower body e).isPublic = body.isPublic.getD e.isPublic := by
  unfold applyUpdate
  cases body.tags <;> cases body.isPublic <;> simp <;> split_ifs <;> rfl

theorem jsTrim_empty : jsTrim "" = "" := by decide

theorem updateEntry_stored (user : User) (id : Nat) (body : EntryBody) {s : Store} {e : Entry}
    (h : findById s id = some e) :
    (updateEntry lower clock user id body s).1.status ≠ 200 ∧
        (updateEntry lower clock user id body s).2 = s ∨
    (updateEntry lower clock user id body s).1.status = 200 ∧ (validateUpdate body).2 = [] ∧
      e.author = user._id ∧
      findById (updateEntry lower clock user id body s).2 id =
          some (touch clock (applyUpdate lower (validateUpdate body).1 e)) ∧
      (updateEntry lower clock user id body s).1.payload =
        .messageEntry "Entry updated successfully"
          (some (touch clock (applyUpdate lower (validateUpdate body).1 e))) := by
  by_cases hv : (validateUpdate body).2 = []
  · by_cases ha : e.author = user._id
    · right
      have hid : (touch clock (applyUpdate lower (validateUpdate body).1 e))._id = id :=
        (applyUpdate_id _ e).trans (findById_id h)
      have hs := findById_save_self (touch clock (applyUpdate lower (validateUpdate body).1 e)) h hid
      rw [updateEntry_allowed user hv h ha]
      refine ⟨rfl, hv, ha, hs, ?_⟩
      show Payload.messageEntry _ _ = _
      rw [hid, hs]
    · left
      rw [updateEntry_denied user hv h ha]
      exact ⟨by simp, rfl⟩
  · left
    rw [updateEntry_invalid user id s hv]
    exact ⟨by simp, rfl⟩

/-- C11: for every update request on a stored entry, whatever the principal and
whatever the answer, the entry is still stored afterwards and: its title is the
one it had when the payload has no title or an empty title, likewise its content;
its tags are the ones it had when the payload has no tags; its visibility is the
one it had when the payload has no `isPublic`. -/
theorem updateEntry_keeps_unsupplied (lower : String → String) (clock : Nat) (user : User)
    (id : Nat) (body : EntryBody) (s : Store)
    (e : Entry) (h : findById s id = some e) :
    ∃ e1 : Entry, findById (updateEntry lower clock user id body s).2 id = some e1 ∧
      (body.title = none ∨ body.title = some "" → e1.title = e.title) ∧
      (body.content = none ∨ body.content = some "" → e1.content = e.content) ∧
      (body.tags = none → e1.tags = e.tags) ∧
      (body.isPublic = none → e1.isPublic = e.isPublic) := by
  rcases updateEntry_stored user id body h with ⟨_, hs⟩ | ⟨_, _, _, hs, _⟩
  · rw [hs]
    exact ⟨e, h, fun _ => rfl, fun _ => rfl, fun _ => rfl, fun _ => rfl⟩
  · refine ⟨_, hs, ?_, ?_, ?_, ?_⟩
    · intro ht
      rw [touch_title, applyUpdate_title, validateUpdate_title]
      rcases ht with ht | ht <;> simp [ht, truthy, jsTrim_empty]
    · intro hc
      rw [touch_content, applyUpdate_content, validateUpdate_content]
      rcases hc with hc | hc <;> simp [hc, truthy, jsTrim_empty]
    · intro ht
      rw [touch_tags, applyUpdate_tags, validateUpdate_tags, ht]
      rfl
    · intro hp
      rw [touch_isPublic, applyUpdate_isPublic, validateUpdate_isPublic, hp]
      rfl

/-- Witness for C11: the author changes only the visibility of her entry; title,
content and tags stay. -/
theorem updateEntry_keeps_unsupplied_witness :
    findById sampleStore 10 = some note10 ∧
    ∃ e1 : Entry,
      findById (updateEntry asciiLower 300 alice 10 ⟨none, none, none, some true,
          none⟩ sampleStore).2 10 =
        some e1 ∧
      e1.title = note10.title ∧ e1.content = note10.content ∧ e1.tags = note10.tags := by
  refine ⟨by decide, ?_⟩
  obtain ⟨e1, h1, h2, h3, h4, _⟩ :=
    updateEntry_keeps_unsupplied asciiLower 300 alice 10 ⟨none, none, none, some true,
        none⟩ sampleStore note10
      (by decide)
  exact ⟨e1, h1, h2 (Or.inl rfl), h3 (Or.inl rfl), h4 rfl⟩

/-- C12, counterexample: the author's update with the title " New " is answered 200
and the stored title is "New", not the supplied value. -/
theorem updateEntry_title_trimmed :
    findById sampleStore 10 = some note10 ∧ note10.author = alice._id ∧
    (updateEntry asciiLower 300 alice 10 ⟨some " New ", none, none, none,
        none⟩ sampleStore).1.status = 200 ∧
    (findById (updateEntry asciiLower 300 alice 10 ⟨some " New ", none, none, none,
        none⟩ sampleStore).2
      10).map Entry.title = some "New" ∧
    (findById (updateEntry asciiLower 300 alice 10 ⟨some " New ", none, none, none,
        none⟩ sampleStore).2
      10).map Entry.title ≠ some " New " := by
  decide

/-- C12, amended: after an update answered 200, the stored tags are the supplied
list with each element trimmed and lowercased, in the same order and whatever the
tags were before; a supplied title or content is stored with the white space at
both ends removed (and is not empty then); a supplied `isPublic` is stored as it
is; the response carries the stored document. -/
theorem updateEntry_replaces_supplied (lower : String → String) (clock : Nat) (user : User)
    (id : Nat) (body : EntryBody) (s : Store)
    (e : Entry) (h : findById s id = some e)
    (hok : (updateEntry lower clock user id body s).1.status = 200) :
    ∃ e1 : Entry, findById (updateEntry lower clock user id body s).2 id = some e1 ∧
      (updateEntry lower clock user id body s).1.payload =
        .messageEntry "Entry updated successfully" (some e1) ∧
      e.author = user._id ∧
      (∀ T : List String, body.tags = some T →
        e1.tags = T.map (fun t => lower (jsTrim t))) ∧
      (∀ t : String, body.title = some t → e1.title = jsTrim t ∧ jsTrim t ≠ "") ∧
      (∀ c : String, body.content = some c → e1.content = jsTrim c ∧ jsTrim c ≠ "") ∧
      (∀ b : Bool, body.isPublic = some b → e1.isPublic = b) := by
  rcases updateEntry_stored user id body h with ⟨hne, _⟩ | ⟨_, hv, ha, hs, hp⟩
  · exact absurd hok hne
  · have hval := (validateUpdate_ok_iff body).1 hv
    refine ⟨_, hs, hp, ha, ?_, ?_, ?_, ?_⟩
    · intro T hT
      rw [touch_tags, applyUpdate_tags, validateUpdate_tags, hT]
      rfl
    · intro t ht
      have hne := hval.1 t ht
      rw [touch_title, applyUpdate_title, validateUpdate_title, ht]
      simp [truthy, hne]
    · intro c hc
      have hne := hval.2 c hc
      rw [touch_content, applyUpdate_content, validateUpdate_content, hc]
      simp [truthy, hne]
    · intro b hb
      rw [touch_isPublic, applyUpdate_isPublic, validateUpdate_isPublic, hb]
      rfl

/-- Witness for the amended C12: the author replaces the tags `["x"]` of her entry
by the empty list. -/
theorem updateEntry_replaces_supplied_witness :
    findById sampleStore 10 = some note10 ∧ note10.tags = ["x"] ∧
    ∃ e1 : Entry,
      findById (updateEntry asciiLower 300 alice 10 ⟨none, none, some [], none,
          none⟩ sampleStore).2 10 =
        some e1 ∧ e1.tags = [] := by
  refine ⟨by decide, by decide, ?_⟩
  obtain ⟨e1, h1, _, _, h2, _⟩ :=
    updateEntry_replaces_supplied asciiLower 300 alice 10 ⟨none, none, some [], none,
        none⟩ sampleStore note10
      (by decide) (by decide)
  exact ⟨e1, h1, h2 [] rfl⟩

/-! ## Trimming and lowercasing -/

theorem toLower_toNat (c : Char) :
    c.toLower.toNat = if 65 ≤ c.toNat ∧ c.toNat ≤ 90 then c.toNat + 32 else c.toNat := by
  unfold Char.toLower
  simp only [ge_iff_le]
  split
  · rename_i h
    obtain ⟨h1, h2⟩ := h
    generalize c.toNat = n at *
    interval_cases n <;> rfl
  · rfl

theorem toLower_toLower (c : Char) : c.toLower.toLower = c.toLower := by
  have h := toLower_toNat c
  have hout : ¬ (c.toLower.toNat ≥ 65 ∧ c.toLower.toNat ≤ 90) := by
    rw [h]
    split_ifs with hr <;> omega
  generalize c.toLower = d at hout
  show (if d.toNat ≥ 65 ∧ d.toNat ≤ 90 then Char.ofNat (d.toNat + 32) else d) = d
  rw [if_neg hout]

theorem isJsSpace_toLower (c : Char) : isJsSpace c.toLower = isJsSpace c := by
  unfold isJsSpace
  simp only [toLower_toNat]
  split_ifs with hr
  · obtain ⟨h1, h2⟩ := hr
    generalize c.toNat = n at *
    interval_cases n <;> rfl
  · rfl

theorem trimChars_eq (cs : List Char) :
    trimChars cs = (cs.dropWhile isJsSpace).rdropWhile isJsSpace := rfl

theorem trimChars_idem (cs : List Char) : trimChars (trimChars cs) = trimChars cs := by
  have hhead : (trimChars cs).dropWhile isJsSpace = trimChars cs := by
    rw [List.dropWhile_eq_self_iff]
    intro hl hsp
    have hpre : trimChars cs <+: cs.dropWhile isJsSpace := by
      rw [trimChars_eq]
      exact List.rdropWhile_prefix _ _
    obtain ⟨rest, hrest⟩ := hpre
    have hl2 : 0 < (cs.dropWhile isJsSpace).length := by
      rw [← hrest, List.length_append]
      omega
    have hnot := List.dropWhile_get_zero_not isJsSpace cs hl2
    have heq : (cs.dropWhile isJsSpace).get ⟨0, hl2⟩ = (trimChars cs).get ⟨0, hl⟩ := by
      simp only [List.get_eq_getElem]
      simp only [← hrest]
      exact List.getElem_append_left hl
    rw [heq] at hnot
    exact hnot hsp
  conv_lhs => rw [trimChars_eq, hhead, trimChars_eq]
  rw [List.rdropWhile_idempotent]
  rfl

theorem trimChars_map_toLower (cs : List Char) :
    trimChars (cs.map Char.toLower) = (trimChars cs).map Char.toLower := by
  have hcomp : isJsSpace ∘ Char.toLower = isJsSpace := funext isJsSpace_toLower
  unfold trimChars
  rw [List.dropWhile_map, hcomp, ← List.map_reverse, List.dropWhile_map, hcomp,
    List.map_reverse]

theorem trimChars_eq_nil_iff (cs : List Char) :
    trimChars cs = [] ↔ cs.all isJsSpace = true := by
  rw [trimChars_eq, List.rdropWhile_eq_nil_iff, List.all_eq_true]
  constructor
  · intro h
    have hnil : cs.dropWhile isJsSpace = [] := by
      by_contra hne
      have hl : 0 < (cs.dropWhile isJsSpace).length := List.length_pos.2 hne
      exact List.dropWhile_get_zero_not isJsSpace cs hl (h _ (List.get_mem _ _ _))
    exact List.dropWhile_eq_nil_iff.1 hnil
  · intro h x hx
    exact h x ((List.dropWhile_sublist isJsSpace).subset hx)

theorem jsTrim_eq_empty_iff (v : String) : jsTrim v = "" ↔ v.data.all isJsSpace = true := by
  rw [← trimChars_eq_nil_iff]
  unfold jsTrim
  constructor
  · intro h
    exact congrArg String.data h
  · intro h
    rw [h]

theorem jsTrim_idem (t : String) : jsTrim (jsTrim t) = jsTrim t := by
  unfold jsTrim
  simp only [trimChars_idem]

theorem asciiLower_lowercases : Lowercases asciiLower := by
  constructor
  · intro t
    unfold asciiLower
    simp only [List.map_map]
    have hcomp : Char.toLower ∘ Char.toLower = Char.toLower := funext toLower_toLower
    rw [hcomp]
  · intro t ht
    have hd : trimChars t.data = t.data := congrArg String.data ht
    unfold asciiLower jsTrim
    simp only [trimChars_map_toLower, hd]

theorem isNormalTag_normalised (hl : Lowercases lower) (t : String) :
    isNormalTag lower (lower (jsTrim t)) :=
  ⟨hl.1 _, hl.2 _ (jsTrim_idem t)⟩

theorem processTags_normal (hl : Lowercases lower) (tags : List String) :
    ∀ t ∈ processTags lower tags, isNormalTag lower t := by
  intro t ht
  unfold processTags at ht
  obtain ⟨u, _, rfl⟩ := List.mem_map.1 ht
  exact isNormalTag_normalised hl u

theorem processTags_of_normal (tags : List String) (h : ∀ t ∈ tags, isNormalTag lower t) :
    processTags lower tags = tags := by
  unfold processTags
  conv_rhs => rw [← List.map_id tags]
  apply List.map_congr_left
  intro t ht
  obtain ⟨h1, h2⟩ := h t ht
  simp only [id, h2, h1]

theorem processTags_idem (hl : Lowercases lower) (tags : List String) :
    processTags lower (processTags lower tags) = processTags lower tags :=
  processTags_of_normal _ (processTags_normal hl tags)

/-! ## Tags of created entries -/

theorem mem_save {s : Store} {doc x : Entry} (hx : x ∈ save doc s) : x ∈ s ∨ x = doc := by
  induction s with
  | nil => simp [save] at hx
  | cons y ys ih =>
    by_cases hy : y._id = doc._id
    · simp only [save, if_pos hy, List.mem_cons] at hx
      rcases hx with hx | hx
      · exact Or.inr hx
      · exact Or.inl (List.mem_cons_of_mem _ hx)
    · simp only [save, if_neg hy, List.mem_cons] at hx
      rcases hx with hx | hx
      · exact Or.inl (hx ▸ List.mem_cons_self _ _)
      · rcases ih hx with h | h
        · exact Or.inl (List.mem_cons_of_mem _ h)
        · exact Or.inr h

theorem createEntry_ok {user : User} {newId now : Nat} {body : EntryBody} {s : Store}
    (hok : (createEntry lower user newId now body s).1.status = 201) :
    (validateCreate body).2 = [] ∧ findById s newId = none := by
  by_cases hv : (validateCreate body).2 = []
  · cases h : findById s newId with
    | none => exact ⟨hv, rfl⟩
    | some e =>
      rw [createEntry_duplicate user now hv h] at hok
      simp at hok
  · rw [createEntry_invalid user newId now s hv] at hok
    simp at hok

theorem newEntry_tags (user : User) (newId now : Nat) (body : EntryBody) :
    (newEntry lower user newId now body).tags = (body.tags.map (processTags lower)).getD [] := by
  unfold newEntry
  cases body.tags <;> rfl

theorem newEntry_tags_normal (hl : Lowercases lower) (user : User) (newId now : Nat)
    (body : EntryBody) :
    ∀ t ∈ (newEntry lower user newId now body).tags, isNormalTag lower t := by
  rw [newEntry_tags]
  cases body.tags with
  | none => simp
  | some T => exact processTags_normal hl T

theorem applyUpdate_tags_normal (hl : Lowercases lower) (body : EntryBody) (e : Entry)
    (h : ∀ t ∈ e.tags, isNormalTag lower t) :
    ∀ t ∈ (applyUpdate lower body e).tags, isNormalTag lower t := by
  rw [applyUpdate_tags]
  cases body.tags with
  | none => exact h
  | some T => exact processTags_normal hl T

theorem step_TagsNormal (hl : Lowercases lower) (eng : Engine) (op : Op) {s : Store}
    (h : TagsNormal lower s) :
    TagsNormal lower (step lower eng op s).2 := by
  cases op with
  | list user page limit sort => exact h
  | search user q tags =>
    show TagsNormal lower (searchEntries lower eng user q tags s).2
    rw [searchEntries_store]
    exact h
  | read clock user id =>
    show TagsNormal lower (getEntry clock user id s).2
    rcases getEntry_store user id s with hs | ⟨e, hf, hs⟩
    · rw [hs]; exact h
    · rw [hs]
      intro x hx
      rcases mem_save hx with hx | hx
      · exact h x hx
      · rw [hx]
        exact h e (findById_mem hf)
  | create user newId now body =>
    show TagsNormal lower (createEntry lower user newId now body s).2
    rcases createEntry_store user newId now body s with hs | ⟨_, hs⟩
    · rw [hs]; exact h
    · rw [hs]
      intro x hx
      rcases List.mem_append.1 hx with hx | hx
      · exact h x hx
      · rw [List.mem_singleton.1 hx]
        exact newEntry_tags_normal hl user newId now _
  | update clock user id body =>
    show TagsNormal lower (updateEntry lower clock user id body s).2
    rcases updateEntry_store user id body s with hs | ⟨e, hf, hs⟩
    · rw [hs]; exact h
    · rw [hs]
      intro x hx
      rcases mem_save hx with hx | hx
      · exact h x hx
      · rw [hx]
        exact applyUpdate_tags_normal hl _ e (h e (findById_mem hf))
  | delete user id =>
    show TagsNormal lower (deleteEntry user id s).2
    rcases deleteEntry_store user id s with hs | hs
    · rw [hs]; exact h
    · rw [hs]
      intro x hx
      exact h x ((delete_sublist s id).subset hx)

theorem run_TagsNormal (hl : Lowercases lower) (eng : Engine) (ops : List Op) :
    ∀ s : Store, TagsNormal lower s → TagsNormal lower (run lower eng ops s) := by
  induction ops with
  | nil => intro s h; exact h
  | cons op ops ih => intro s h; exact ih _ (step_TagsNormal hl eng op h)

/-- C13: a create answered 201 stores the entry with the supplied tags trimmed and
lowercased one by one (same length, same order), or with no tags when the payload
has none, and a read of it by its author returns these tags. Lowercasing being what
`toLowerCase` is (a lowercased string is left as it is, and a string with no white
space at either end is given none): every tag stored this way is lowercase with no
white space at either end; normalising a normalised list changes nothing; and in
every store reached from the empty one by requests to the entry routes every tag is
in normal form. -/
theorem createEntry_normalises_tags (lower : String → String) (eng : Engine)
    (hidem : ∀ s : String, lower (lower s) = lower s)
    (htrim : ∀ s : String, jsTrim s = s → jsTrim (lower s) = lower s) :
    (∀ (user : User) (newId now : Nat) (body : EntryBody) (s : Store),
      (createEntry lower user newId now body s).1.status = 201 →
      ∃ e : Entry, findById (createEntry lower user newId now body s).2 newId = some e ∧
        (∀ clock : Nat, ∃ e1 : Entry,
          (getEntry clock user newId (createEntry lower user newId now body s).2).1 =
            ⟨200, .entry e1⟩ ∧
          e1.tags = e.tags) ∧
        (∀ T : List String, body.tags = some T →
          e.tags = T.map (fun t => lower (jsTrim t)) ∧ e.tags.length = T.length) ∧
        (body.tags = none → e.tags = []) ∧
        (∀ t ∈ e.tags, lower t = t ∧ jsTrim t = t)) ∧
    (∀ T : List String, processTags lower (processTags lower T) = processTags lower T) ∧
    (∀ T : List String, (∀ t ∈ T, lower t = t ∧ jsTrim t = t) → processTags lower T = T) ∧
    (∀ ops : List Op, ∀ e ∈ run lower eng ops [], ∀ t ∈ e.tags, lower t = t ∧ jsTrim t = t) ∧
    processTags lower ["React", " Tutorial "] = [lower "React", lower "Tutorial"] := by
  have hl : Lowercases lower := ⟨hidem, htrim⟩
  have hex : processTags lower ["React", " Tutorial "] = [lower "React", lower "Tutorial"] := by
    have h1 : jsTrim "React" = "React" := by decide
    have h2 : jsTrim " Tutorial " = "Tutorial" := by decide
    simp [processTags, h1, h2]
  refine ⟨?_, processTags_idem hl, processTags_of_normal, ?_, hex⟩
  · intro user newId now body s hok
    obtain ⟨hv, hfresh⟩ := createEntry_ok hok
    have hrun : createEntry lower user newId now body s = _ :=
      createEntry_created user now hv hfresh
    have hid : (newEntry lower user newId now (validateCreate body).1)._id = newId := rfl
    have hf : findById (s ++ [newEntry lower user newId now (validateCreate body).1]) newId =
        some (newEntry lower user newId now (validateCreate body).1) := by
      rw [findById_append_of_none _ hfresh]
      simp [findById, hid]
    rw [hrun]
    refine ⟨_, hf, ?_, ?_, ?_, newEntry_tags_normal hl user newId now _⟩
    · intro clock
      refine ⟨{ newEntry lower user newId now (validateCreate body).1 with
          views := (newEntry lower user newId now (validateCreate body).1).views + 1,
          updatedAt := clock }, ?_, rfl⟩
      rw [getEntry_allowed user hf (Or.inl rfl)]
    · intro T hT
      have ht : (validateCreate body).1.tags = some T := hT
      rw [newEntry_tags, ht]
      exact ⟨rfl, by simp [processTags]⟩
    · intro hT
      have ht : (validateCreate body).1.tags = none := hT
      rw [newEntry_tags, ht]
      rfl
  · intro ops
    exact run_TagsNormal hl eng ops [] (fun e he => absurd he (List.not_mem_nil e))

/-- Witness for C13: with the lowercasing of ASCII letters, `alice` creates an entry
with the tags "React" and " Tutorial " and reads it back with the tags "react" and
"tutorial". -/
theorem createEntry_normalises_tags_witness :
    (∀ s : String, asciiLower (asciiLower s) = asciiLower s) ∧
    (createEntry asciiLower alice 12 200
      ⟨some "T", some "C", some ["React", " Tutorial "], none, none⟩ sampleStore).1.status = 201 ∧
    ∃ e : Entry,
      findById (createEntry asciiLower alice 12 200
        ⟨some "T", some "C", some ["React", " Tutorial "], none, none⟩ sampleStore).2 12 =
          some e ∧
      e.tags = ["react", "tutorial"] := by
  refine ⟨asciiLower_lowercases.1, by decide, ?_⟩
  obtain ⟨e, h1, _, h2, _⟩ :=
    (createEntry_normalises_tags asciiLower plainEngine asciiLower_lowercases.1
      asciiLower_lowercases.2).1 alice 12 200
      ⟨some "T", some "C", some ["React", " Tutorial "], none, none⟩ sampleStore (by decide)
  refine ⟨e, h1, ?_⟩
  rw [(h2 _ rfl).1]
  decide

/-! ## Validation of a create request -/

theorem jsTrim_getD_eq_empty_iff (v : Option String) :
    jsTrim (v.getD "") = "" ↔ isBlank v = true := by
  cases v with
  | none => simp [isBlank, jsTrim_empty]
  | some t => simpa [isBlank] using jsTrim_eq_empty_iff t

theorem validateCreate_ok_iff (body : EntryBody) :
    (validateCreate body).2 = [] ↔ isBlank body.title = false ∧ isBlank body.content = false := by
  have ht := jsTrim_getD_eq_empty_iff body.title
  have hc := jsTrim_getD_eq_empty_iff body.content
  by_cases h1 : jsTrim (body.title.getD "") = "" <;>
    by_cases h2 : jsTrim (body.content.getD "") = "" <;>
    simp [validateCreate, requiredField, h1, h2] <;> simp_all

/-- C14: with a fresh identifier for the new document, a create is answered 400
exactly when the title or the content is missing, empty or made of white space
only, and then the store is left as it was; otherwise it is answered 201 and the
entry added to the store, which the response carries, has the requesting principal
as author, `views` 0, `isPublic` false when the payload has none and the supplied
value otherwise. -/
theorem createEntry_validation (lower : String → String) (user : User) (newId now : Nat)
    (body : EntryBody) (s : Store)
    (hfresh : findById s newId = none) :
    ((createEntry lower user newId now body s).1.status = 400 ↔
      (isBlank body.title = true ∨ isBlank body.content = true)) ∧
    ((createEntry lower user newId now body s).1.status = 400 →
      (createEntry lower user newId now body s).2 = s) ∧
    (isBlank body.title = false → isBlank body.content = false →
      ∃ e : Entry,
        createEntry lower user newId now body s =
          (⟨201, .messageEntry "Entry created successfully" (some e)⟩, s ++ [e]) ∧
        findById (createEntry lower user newId now body s).2 newId = some e ∧
        e.author = user._id ∧ e.views = 0 ∧
        (body.isPublic = none → e.isPublic = false) ∧
        (∀ b : Bool, body.isPublic = some b → e.isPublic = b)) := by
  by_cases hv : (validateCreate body).2 = []
  · have hb := (validateCreate_ok_iff body).1 hv
    have hrun : createEntry lower user newId now body s = _ :=
      createEntry_created user now hv hfresh
    have hid : (newEntry lower user newId now (validateCreate body).1)._id = newId := rfl
    have hf : findById (s ++ [newEntry lower user newId now (validateCreate body).1]) newId =
        some (newEntry lower user newId now (validateCreate body).1) := by
      rw [findById_append_of_none _ hfresh]
      simp [findById, hid]
    rw [hrun]
    refine ⟨by simp [hb.1, hb.2], by simp, fun _ _ => ⟨_, rfl, hf, rfl, rfl, ?_, ?_⟩⟩
    · intro hp
      have hp2 : (validateCreate body).1.isPublic = none := hp
      simp [newEntry, hp2]
    · intro b hp
      have hp2 : (validateCreate body).1.isPublic = some b := hp
      simp [newEntry, hp2]
  · have hb : ¬ (isBlank body.title = false ∧ isBlank body.content = false) :=
      fun h => hv ((validateCreate_ok_iff body).2 h)
    rw [createEntry_invalid user newId now s hv]
    refine ⟨?_, fun _ => rfl, fun h1 h2 => absurd ⟨h1, h2⟩ hb⟩
    constructor
    · intro _
      by_cases h1 : isBlank body.title = true
      · exact Or.inl h1
      · right
        by_contra h2
        exact hb ⟨by simpa using h1, by simpa using h2⟩
    · intro _
      rfl

/-- Witness for C14: a title of blanks is refused, and a proper payload without
`isPublic` creates a private entry of `alice` with no views. -/
theorem createEntry_validation_witness :
    findById sampleStore 12 = none ∧
    (createEntry asciiLower alice 12 200 ⟨some "  ", some "C", none, none,
        none⟩ sampleStore).1.status =
      400 ∧
    createEntry asciiLower alice 12 200 ⟨some "T", some "C", none, none, none⟩ sampleStore =
      (⟨201, .messageEntry "Entry created successfully"
          (some ⟨12, "T", "C", [], 1, false, 0, 200, 200⟩)⟩,
        sampleStore ++ [⟨12, "T", "C", [], 1, false, 0, 200, 200⟩]) :=
  ⟨by decide,
    (createEntry_validation asciiLower alice 12 200 ⟨some "  ", some "C", none, none,
        none⟩ sampleStore
      (by decide)).1.2 (Or.inl (by decide)),
    by decide⟩

/-! ## Search -/

theorem truthy_eq_false_iff (v : Option String) : truthy v = false ↔ v = none ∨ v = some "" := by
  cases v with
  | none => simp [truthy]
  | some t => simp [truthy]

theorem truthy_eq_true_iff (v : Option String) : truthy v = true ↔ ∃ t, v = some t ∧ t ≠ "" := by
  cases v with
  | none => simp [truthy]
  | some t => simp [truthy]

theorem mem_findByAuthor (s : Store) (author : Nat) (e : Entry) :
    e ∈ findByAuthor s author ↔ e ∈ s ∧ e.author = author := by
  simp [findByAuthor]

theorem matchesTags_iff (terms : List String) (e : Entry) :
    matchesTags terms e = true ↔ ∃ t ∈ e.tags, t ∈ terms := by
  simp [matchesTags]

theorem searchEntries_rejected (eng : Engine) (user : User) {q tags : Option String} (s : Store)
    (hq : truthy q = false) (ht : truthy tags = false) :
    searchEntries lower eng user q tags s =
      (⟨400, .message "Please provide a search query or tags"⟩, s) := by
  simp [searchEntries, hq, ht]

theorem searchEntries_bad_pattern (eng : Engine) (user : User) {q : Option String}
    (tags : Option String) (s : Store) (hq : truthy q = true)
    (hre : eng.regex (q.getD "") = none) :
    searchEntries lower eng user q tags s = (⟨500, .message "Error searching entries"⟩, s) := by
  simp [searchEntries, hq, hre]

theorem searchEntries_text (eng : Engine) (user : User) {q tags : Option String} (s : Store)
    {test : String → Bool} (hq : truthy q = true) (hre : eng.regex (q.getD "") = some test)
    (ht : truthy tags = false) :
    searchEntries lower eng user q tags s =
      (⟨200, .found (eng.sort "-createdAt" ((findByAuthor s user._id).filter (matchesText test)))
          (eng.sort "-createdAt"
            ((findByAuthor s user._id).filter (matchesText test))).length⟩, s) := by
  simp [searchEntries, hq, hre, ht]

theorem searchEntries_tags (eng : Engine) (user : User) {q tags : Option String} (s : Store)
    (hq : truthy q = false) (ht : truthy tags = true) :
    searchEntries lower eng user q tags s =
      (⟨200, .found
          (eng.sort "-createdAt" ((findByAuthor s user._id).filter
            (matchesTags (processTags lower (splitComma (tags.getD ""))))))
          (eng.sort "-createdAt" ((findByAuthor s user._id).filter
            (matchesTags (processTags lower (splitComma (tags.getD "")))))).length⟩, s) := by
  simp [searchEntries, hq, ht]

theorem searchEntries_both (eng : Engine) (user : User) {q tags : Option String} (s : Store)
    {test : String → Bool} (hq : truthy q = true) (hre : eng.regex (q.getD "") = some test)
    (ht : truthy tags = true) :
    searchEntries lower eng user q tags s =
      (⟨200, .found
          (eng.sort "-createdAt" (((findByAuthor s user._id).filter (matchesText test)).filter
            (matchesTags (processTags lower (splitComma (tags.getD ""))))))
          (eng.sort "-createdAt" (((findByAuthor s user._id).filter (matchesText test)).filter
            (matchesTags (processTags lower (splitComma (tags.getD "")))))).length⟩, s) := by
  simp [searchEntries, hq, hre, ht]

/-- C15: the search is answered 400 exactly when `q` is absent or empty and `tags` is
absent or empty; that answer is the same whatever the store and the database, which
are not consulted, and the store is left as it was; with a non-empty `q` or a
non-empty `tags` the answer is 200, or 500 when `q` is a pattern the database does
not compile. -/
theorem searchEntries_requires_criterion (lower : String → String) (eng : Engine) (user : User)
    (q tags : Option String)
    (s : Store) :
    ((searchEntries lower eng user q tags s).1.status = 400 ↔
      ((q = none ∨ q = some "") ∧ (tags = none ∨ tags = some ""))) ∧
    ((q = none ∨ q = some "") → (tags = none ∨ tags = some "") →
      ∀ (eng2 : Engine) (s2 : Store),
        searchEntries lower eng2 user q tags s2 =
          (⟨400, .message "Please provide a search query or tags"⟩, s2)) ∧
    (¬ ((q = none ∨ q = some "") ∧ (tags = none ∨ tags = some "")) →
      (searchEntries lower eng user q tags s).1.status = 200 ∨
      ((searchEntries lower eng user q tags s).1.status = 500 ∧ eng.regex (q.getD "") = none ∧
        ∃ t, q = some t ∧ t ≠ "")) := by
  have hcases : (truthy q = false ∧ truthy tags = false) ∨
      ((searchEntries lower eng user q tags s).1.status = 200 ∧
        (truthy q = true ∨ truthy tags = true)) ∨
      ((searchEntries lower eng user q tags s).1.status = 500 ∧ eng.regex (q.getD "") = none ∧
        truthy q = true) := by
    cases hq : truthy q <;> cases ht : truthy tags
    · exact Or.inl ⟨rfl, rfl⟩
    · right; left
      rw [searchEntries_tags eng user s hq ht]
      exact ⟨rfl, Or.inr rfl⟩
    · cases hre : eng.regex (q.getD "") with
      | none =>
        right; right
        rw [searchEntries_bad_pattern eng user tags s hq hre]
        exact ⟨rfl, rfl, rfl⟩
      | some test =>
        right; left
        rw [searchEntries_text eng user s hq hre ht]
        exact ⟨rfl, Or.inl rfl⟩
    · cases hre : eng.regex (q.getD "") with
      | none =>
        right; right
        rw [searchEntries_bad_pattern eng user tags s hq hre]
        exact ⟨rfl, rfl, rfl⟩
      | some test =>
        right; left
        rw [searchEntries_both eng user s hq hre ht]
        exact ⟨rfl, Or.inl rfl⟩
  refine ⟨?_, ?_, ?_⟩
  · rw [← truthy_eq_false_iff, ← truthy_eq_false_iff]
    rcases hcases with ⟨hq, ht⟩ | ⟨hst, hor⟩ | ⟨hst, _, hq⟩
    · rw [searchEntries_rejected eng user s hq ht]
      simp [hq, ht]
    · rw [hst]
      rcases hor with h | h <;> simp [h]
    · rw [hst]
      simp [hq]
  · intro hq ht eng2 s2
    exact searchEntries_rejected eng2 user s2 ((truthy_eq_false_iff q).2 hq)
      ((truthy_eq_false_iff tags).2 ht)
  · intro hne
    rw [← truthy_eq_false_iff, ← truthy_eq_false_iff] at hne
    rcases hcases with h | ⟨hst, _⟩ | ⟨hst, hre, hq⟩
    · exact absurd h hne
    · exact Or.inl hst
    · exact Or.inr ⟨hst, hre, (truthy_eq_true_iff q).1 hq⟩

/-- Witness for C15: a search with an empty `q` and no `tags` is answered 400. -/
theorem searchEntries_requires_criterion_witness :
    searchEntries asciiLower plainEngine alice (some "") none sampleStore =
      (⟨400, .message "Please provide a search query or tags"⟩, sampleStore) :=
  (searchEntries_requires_criterion asciiLower plainEngine alice (some "") none sampleStore).2.1
    (Or.inr rfl) (Or.inl rfl) plainEngine sampleStore

theorem splitChars_ne_nil (sep : Char) (cs : List Char) : splitChars sep cs ≠ [] := by
  induction cs with
  | nil => simp [splitChars]
  | cons c cs ih =>
    unfold splitChars
    split_ifs
    · simp
    · cases h : splitChars sep cs <;> simp
theorem splitChars_intercalate (sep : Char) (cs : List Char) :
    List.intercalate [sep] (splitChars sep cs) = cs := by
  induction cs with
  | nil => rfl
  | cons c cs ih =>
    unfold splitChars
    split_ifs with hc
    · cases h : splitChars sep cs with
      | nil => exact absurd h (splitChars_ne_nil sep cs)
      | cons p ps =>
        rw [h] at ih
        subst hc
        simpa [List.intercalate, List.intersperse] using ih
    · cases h : splitChars sep cs with
      | nil => exact absurd h (splitChars_ne_nil sep cs)
      | cons p ps =>
        rw [h] at ih
        cases ps with
        | nil => simpa [List.intercalate, List.intersperse] using ih
        | cons p2 ps2 => simpa [List.intercalate, List.intersperse] using ih
theorem splitChars_no_sep (sep : Char) (cs : List Char) :
    ∀ piece ∈ splitChars sep cs, sep ∉ piece := by
  induction cs with
  | nil => simp [splitChars]
  | cons c cs ih =>
    unfold splitChars
    split_ifs with hc
    · intro piece hp
      rcases List.mem_cons.1 hp with h | h
      · simp [h]
      · exact ih piece h
    · cases h : splitChars sep cs with
      | nil => exact absurd h (splitChars_ne_nil sep cs)
      | cons p ps =>
        rw [h] at ih
        intro piece hp
        rcases List.mem_cons.1 hp with h2 | h2
        · rw [h2]
          intro hmem
          rcases List.mem_cons.1 hmem with h3 | h3
          · exact hc h3.symm
          · exact ih p (List.mem_cons_self _ _) h3
        · exact ih piece (List.mem_cons_of_mem _ h2)

theorem processTags_splitComma (ts : String) :
    processTags lower (splitComma ts) =
      (splitChars ',' ts.data).map (fun piece => lower (jsTrim (String.mk piece))) := by
  simp [processTags, splitComma, List.map_map, Function.comp_def]

theorem plainEngine_reorders : plainEngine.Reorders := fun _ _ => List.Perm.refl _

theorem dotEngine_reorders : dotEngine.Reorders := fun _ _ => List.Perm.refl _

theorem filter_findByAuthor (s : Store) (author : Nat) (p : Entry → Bool) :
    (findByAuthor s author).filter p = s.filter (fun e => e.author == author && p e) := by
  simp [findByAuthor, List.filter_filter, Bool.and_comm]

/-- C16: for a search with a non-empty `tags` parameter and no text term, the terms
are the pieces of the parameter between commas (the pieces hold no comma and, joined
by commas, give the parameter back), each trimmed and lowercased; when the database
ordering only reorders, the answer is 200 and holds exactly the entries of the
principal that have at least one stored tag among the terms, each once, with their
number as `count`; "A,b , C" gives the terms a, b, c. -/
theorem searchEntries_by_tags (lower : String → String) (eng : Engine) (hsort : eng.Reorders)
    (user : User)
    (q : Option String) (ts : String) (s : Store) (hq : q = none ∨ q = some "")
    (hts : ts ≠ "") :
    (processTags lower (splitComma ts) =
        (splitChars ',' ts.data).map (fun piece => lower (jsTrim (String.mk piece))) ∧
      List.intercalate [','] (splitChars ',' ts.data) = ts.data ∧
      (∀ piece ∈ splitChars ',' ts.data, ',' ∉ piece)) ∧
    (∃ entries : List Entry,
      searchEntries lower eng user q (some ts) s = (⟨200, .found entries entries.length⟩, s) ∧
      entries.Perm (s.filter fun e =>
        e.author == user._id && e.tags.any fun t => (processTags lower (splitComma ts)).contains t) ∧
      ∀ e : Entry, e ∈ entries ↔
        (e ∈ s ∧ e.author = user._id ∧ ∃ t ∈ e.tags, t ∈ processTags lower (splitComma ts))) ∧
    processTags lower (splitComma "A,b , C") = [lower "A", lower "b", lower "C"] := by
  have hex : processTags lower (splitComma "A,b , C") = [lower "A", lower "b", lower "C"] := by
    have h0 : splitComma "A,b , C" = ["A", "b ", " C"] := by decide
    have h1 : jsTrim "A" = "A" := by decide
    have h2 : jsTrim "b " = "b" := by decide
    have h3 : jsTrim " C" = "C" := by decide
    simp [processTags, h0, h1, h2, h3]
  refine ⟨⟨processTags_splitComma ts, splitChars_intercalate ',' ts.data,
    splitChars_no_sep ',' ts.data⟩, ?_, hex⟩
  have hq2 : truthy q = false := (truthy_eq_false_iff q).2 hq
  have ht2 : truthy (some ts) = true := (truthy_eq_true_iff _).2 ⟨ts, rfl, hts⟩
  have hperm := hsort "-createdAt"
    ((findByAuthor s user._id).filter (matchesTags (processTags lower (splitComma ts))))
  have hrun : searchEntries lower eng user q (some ts) s =
      (⟨200, .found
        (eng.sort "-createdAt"
          ((findByAuthor s user._id).filter (matchesTags (processTags lower (splitComma ts)))))
        (eng.sort "-createdAt"
          ((findByAuthor s user._id).filter
            (matchesTags (processTags lower (splitComma ts))))).length⟩, s) :=
    searchEntries_tags eng user s hq2 ht2
  refine ⟨_, hrun, ?_, ?_⟩
  · exact hperm.trans (List.Perm.of_eq (filter_findByAuthor s user._id _))
  · intro e
    rw [hperm.mem_iff, List.mem_filter, mem_findByAuthor, matchesTags_iff]
    exact ⟨fun h => ⟨h.1.1, h.1.2, h.2⟩, fun h => ⟨⟨h.1, h.2.1⟩, h.2.2⟩⟩

/-- Witness for C16: the search of `alice` for the tags "A,b , C" finds her entries
tagged `a` and `c`, not the entry of `bob` tagged `a`. -/
theorem searchEntries_by_tags_witness :
    searchEntries asciiLower plainEngine alice none (some "A,b , C") taggedStore =
      (⟨200, .found [⟨20, "abc", "zzz", ["a"], 1, false, 0, 110, 110⟩,
          ⟨21, "Plan", "a.c", ["c", "q"], 1, false, 0, 111, 111⟩] 2⟩, taggedStore) ∧
    ∃ entries : List Entry,
      searchEntries asciiLower plainEngine alice none (some "A,b , C") taggedStore =
        (⟨200, .found entries entries.length⟩, taggedStore) ∧
      ((⟨23, "abc", "a.c", ["a"], 2, true, 0, 113, 113⟩ : Entry) ∉ entries) := by
  refine ⟨by decide, ?_⟩
  obtain ⟨entries, h1, _, h3⟩ :=
    (searchEntries_by_tags asciiLower plainEngine plainEngine_reorders alice none
        "A,b , C" taggedStore
      (Or.inl rfl) (by decide)).2.1
  refine ⟨entries, h1, fun hmem => ?_⟩
  have := ((h3 _).1 hmem).2.1
  exact absurd this (by decide)

theorem searchEntries_cases (eng : Engine) (user : User) (q tags : Option String) (s : Store) :
    searchEntries lower eng user q tags s =
        (⟨400, .message "Please provide a search query or tags"⟩, s) ∨
    searchEntries lower eng user q tags s = (⟨500, .message "Error searching entries"⟩, s) ∨
    ∃ docs : List Entry, docs.Sublist (findByAuthor s user._id) ∧
      searchEntries lower eng user q tags s =
        (⟨200, .found (eng.sort "-createdAt" docs) (eng.sort "-createdAt" docs).length⟩, s) := by
  cases hq : truthy q <;> cases ht : truthy tags
  · exact Or.inl (searchEntries_rejected eng user s hq ht)
  · exact Or.inr (Or.inr ⟨_, List.filter_sublist _, searchEntries_tags eng user s hq ht⟩)
  · cases hre : eng.regex (q.getD "") with
    | none => exact Or.inr (Or.inl (searchEntries_bad_pattern eng user tags s hq hre))
    | some test =>
      exact Or.inr (Or.inr ⟨_, List.filter_sublist _, searchEntries_text eng user s hq hre ht⟩)
  · cases hre : eng.regex (q.getD "") with
    | none => exact Or.inr (Or.inl (searchEntries_bad_pattern eng user tags s hq hre))
    | some test =>
      exact Or.inr (Or.inr ⟨_, (List.filter_sublist _).trans (List.filter_sublist _),
        searchEntries_both eng user s hq hre ht⟩)

/-- C17: when the database ordering only reorders and both a non-empty `q`, compiled
by the database to the test `test`, and a non-empty `tags` are supplied, the answer
is 200 and holds exactly the entries of the store that are authored by the
principal, pass the test on title or content, and have at least one stored tag
among the requested ones, each once; and whatever `q` and `tags` are, every entry a
search returns is a stored entry authored by the principal, and `count` is the
number of entries returned. -/
theorem searchEntries_text_and_tags (lower : String → String) (eng : Engine)
    (hsort : eng.Reorders) (user : User)
    (s : Store) :
    (∀ (qs ts : String) (test : String → Bool), qs ≠ "" → ts ≠ "" → eng.regex qs = some test →
      ∃ entries : List Entry,
        searchEntries lower eng user (some qs) (some ts) s =
          (⟨200, .found entries entries.length⟩, s) ∧
        entries.Perm (s.filter fun e =>
          e.author == user._id && ((test e.title || test e.content) &&
            e.tags.any fun t => (processTags lower (splitComma ts)).contains t)) ∧
        ∀ e : Entry, e ∈ entries ↔
          (e ∈ s ∧ e.author = user._id ∧ (test e.title = true ∨ test e.content = true) ∧
            ∃ t ∈ e.tags, t ∈ processTags lower (splitComma ts))) ∧
    (∀ (q tags : Option String) (entries : List Entry) (n : Nat),
      (searchEntries lower eng user q tags s).1.payload = .found entries n →
        n = entries.length ∧ ∀ e ∈ entries, e ∈ s ∧ e.author = user._id) := by
  constructor
  · intro qs ts test hqs hts hre
    have hq2 : truthy (some qs) = true := (truthy_eq_true_iff _).2 ⟨qs, rfl, hqs⟩
    have ht2 : truthy (some ts) = true := (truthy_eq_true_iff _).2 ⟨ts, rfl, hts⟩
    have hperm := hsort "-createdAt"
      (((findByAuthor s user._id).filter (matchesText test)).filter
        (matchesTags (processTags lower (splitComma ts))))
    have hrun : searchEntries lower eng user (some qs) (some ts) s =
        (⟨200, .found
          (eng.sort "-createdAt" (((findByAuthor s user._id).filter (matchesText test)).filter
            (matchesTags (processTags lower (splitComma ts)))))
          (eng.sort "-createdAt" (((findByAuthor s user._id).filter (matchesText test)).filter
            (matchesTags (processTags lower (splitComma ts))))).length⟩, s) :=
      searchEntries_both eng user s hq2 hre ht2
    refine ⟨_, hrun, ?_, ?_⟩
    · refine hperm.trans (List.Perm.of_eq ?_)
      simp [findByAuthor, List.filter_filter, matchesText, matchesTags, Bool.and_comm,
        Bool.and_assoc, Bool.and_left_comm]
    · intro e
      rw [hperm.mem_iff, List.mem_filter, List.mem_filter, mem_findByAuthor, matchesTags_iff]
      simp only [matchesText, Bool.or_eq_true]
      exact ⟨fun h => ⟨h.1.1.1, h.1.1.2, h.1.2, h.2⟩, fun h => ⟨⟨⟨h.1, h.2.1⟩, h.2.2.1⟩, h.2.2.2⟩⟩
  · intro q tags entries n hpay
    rcases searchEntries_cases eng user q tags s with h | h | ⟨docs, hsub, h⟩
    · rw [h] at hpay
      simp at hpay
    · rw [h] at hpay
      simp at hpay
    · rw [h] at hpay
      simp only [Payload.found.injEq] at hpay
      obtain ⟨h1, h2⟩ := hpay
      subst h1
      refine ⟨h2.symm, fun e he => ?_⟩
      have hmem := hsub.subset (((hsort "-createdAt" docs).mem_iff).1 he)
      exact (mem_findByAuthor s user._id e).1 hmem

/-- Witness for C17: the search of `alice` for the text "Plan" and the tags "A,b , C"
finds her entry 21 only. -/
theorem searchEntries_text_and_tags_witness :
    ∃ entries : List Entry,
      searchEntries asciiLower plainEngine alice (some "Plan") (some "A,b , C") taggedStore =
        (⟨200, .found entries entries.length⟩, taggedStore) ∧
      ((⟨21, "Plan", "a.c", ["c", "q"], 1, false, 0, 111, 111⟩ : Entry) ∈ entries) ∧
      ((⟨20, "abc", "zzz", ["a"], 1, false, 0, 110, 110⟩ : Entry) ∉ entries) := by
  obtain ⟨entries, h1, _, h3⟩ :=
    (searchEntries_text_and_tags asciiLower plainEngine plainEngine_reorders alice taggedStore).1
      "Plan" "A,b , C" (fun text => occursIn "Plan".data text.data) (by decide) (by decide) rfl
  refine ⟨entries, h1, (h3 _).2 (by decide), fun hmem => ?_⟩
  have := ((h3 _).1 hmem).2.2.1
  exact absurd this (by decide)

/-! ## Free-text search -/

theorem matchHere_literal (ps ts : List Char) (hp : ∀ c ∈ ps, c.toNat ≠ 46) :
    matchHere ps ts = beginsWith (ps.map Char.toLower) (ts.map Char.toLower) := by
  induction ps generalizing ts with
  | nil => rfl
  | cons p ps ih =>
    cases ts with
    | nil => rfl
    | cons t ts =>
      have h1 : p.toNat ≠ 46 := hp p (List.mem_cons_self _ _)
      have h2 : ∀ c ∈ ps, c.toNat ≠ 46 := fun c hc => hp c (List.mem_cons_of_mem _ hc)
      simp only [matchHere, beginsWith, List.map_cons, matchChar, if_neg h1, ih ts h2]

theorem matchAnywhere_literal (ps ts : List Char) (hp : ∀ c ∈ ps, c.toNat ≠ 46) :
    matchAnywhere ps ts = occursIn (ps.map Char.toLower) (ts.map Char.toLower) := by
  induction ts with
  | nil => simp only [matchAnywhere, occursIn, List.map_nil, matchHere_literal ps [] hp]
  | cons t ts ih =>
    simp only [matchAnywhere, occursIn, List.map_cons, ih, matchHere_literal ps (t :: ts) hp]

theorem dotEngine_readsDots : dotEngine.ReadsDots := by
  intro q hq
  have hany : q.data.any isOperatorChar = false := by
    rw [List.any_eq_false]
    intro c hc
    have := List.all_eq_true.1 hq c hc
    simp only [Bool.and_eq_true, Bool.not_eq_true'] at this
    simp [this.2]
  have hre : dotEngine.regex q = some fun text => matchAnywhere q.data text.data := by
    unfold dotEngine
    simp only [hany]
    rfl
  exact ⟨_, hre, fun _ _ => rfl⟩

theorem literalMatch_eq (q text : String) (hq : ∀ c ∈ q.data, c.toNat ≠ 46) :
    matchAnywhere q.data text.data = literalMatch q text :=
  matchAnywhere_literal q.data text.data hq

/-- C18, counterexample: with a database that reads the dot of a pattern as "any
character", the search of `alice` for "a.c" returns her entry 20, whose title "abc"
and content "zzz" do not contain "a.c" as a literal substring, letter case ignored. -/
theorem searchEntries_dot_is_special :
    searchEntries asciiLower dotEngine alice (some "a.c") none taggedStore =
      (⟨200, .found [⟨20, "abc", "zzz", ["a"], 1, false, 0, 110, 110⟩,
          ⟨21, "Plan", "a.c", ["c", "q"], 1, false, 0, 111, 111⟩] 2⟩, taggedStore) ∧
    literalMatch "a.c" "abc" = false ∧ literalMatch "a.c" "zzz" = false := by
  decide

theorem searchEntries_compiled (eng : Engine) (hsort : eng.Reorders) (user : User)
    (qs : String) (tags : Option String) (s : Store) (hqs : qs ≠ "")
    (htags : tags = none ∨ tags = some "") (test : String → Bool)
    (hre : eng.regex qs = some test) :
    ∃ entries : List Entry,
      searchEntries lower eng user (some qs) tags s =
        (⟨200, .found entries entries.length⟩, s) ∧
      entries.Perm (s.filter fun e =>
        e.author == user._id && (test e.title || test e.content)) ∧
      ∀ e : Entry, e ∈ entries ↔
        (e ∈ s ∧ e.author = user._id ∧ (test e.title = true ∨ test e.content = true)) := by
  have hq2 : truthy (some qs) = true := (truthy_eq_true_iff _).2 ⟨qs, rfl, hqs⟩
  have ht2 : truthy tags = false := (truthy_eq_false_iff tags).2 htags
  have hperm := hsort "-createdAt" ((findByAuthor s user._id).filter (matchesText test))
  have hrun : searchEntries lower eng user (some qs) tags s =
      (⟨200, .found
        (eng.sort "-createdAt" ((findByAuthor s user._id).filter (matchesText test)))
        (eng.sort "-createdAt"
          ((findByAuthor s user._id).filter (matchesText test))).length⟩, s) :=
    searchEntries_text eng user s hq2 hre ht2
  refine ⟨_, hrun, ?_, ?_⟩
  · exact hperm.trans (List.Perm.of_eq (filter_findByAuthor s user._id _))
  · intro e
    rw [hperm.mem_iff, List.mem_filter, mem_findByAuthor]
    simp only [matchesText, Bool.or_eq_true]
    exact ⟨fun h => ⟨h.1.1, h.1.2, h.2⟩, fun h => ⟨⟨h.1, h.2.1⟩, h.2.2⟩⟩

theorem searchEntries_dots (eng : Engine) (hsort : eng.Reorders) (hread : eng.ReadsDots)
    (user : User) (qs : String) (tags : Option String) (s : Store) (hqs : qs ≠ "")
    (htags : tags = none ∨ tags = some "") (hpat : isDotPattern qs = true) :
    ∃ entries : List Entry,
      searchEntries lower eng user (some qs) tags s =
        (⟨200, .found entries entries.length⟩, s) ∧
      (∀ e ∈ entries, e ∈ s ∧ e.author = user._id) ∧
      (∀ e : Entry, isAscii e.title = true → isAscii e.content = true →
        (e ∈ entries ↔
          (e ∈ s ∧ e.author = user._id ∧
            (matchAnywhere qs.data e.title.data = true ∨
              matchAnywhere qs.data e.content.data = true)))) := by
  obtain ⟨test, hre, htest⟩ := hread qs hpat
  obtain ⟨entries, hrun, _, hmem⟩ :=
    searchEntries_compiled eng hsort user qs tags s hqs htags test hre
  refine ⟨entries, hrun, fun e he => ⟨((hmem e).1 he).1, ((hmem e).1 he).2.1⟩, ?_⟩
  intro e ht hc
  rw [hmem e, htest e.title ht, htest e.content hc]

/-- C18, amended: the text term is handed to the database as a `$regex` pattern with
option `i`, and its characters keep their meaning in a pattern. When the database
ordering only reorders and the database reads patterns of ordinary characters and
dots as `$regex` does, for a non-empty term `q` and no tags:
if the database compiles `q` to the test `test`, the answer is 200 and holds exactly
the entries of the principal whose title or content passes the test, each once;
if `q` is made of ordinary ASCII characters and dots, an entry with ASCII title and
content is returned exactly when it is an entry of the principal whose title or
content has a run of characters matching `q` position by position, letter case
ignored, a dot matching any character but the line feed;
so a term of ordinary characters without dot returns exactly the entries whose title
or content contains it as a literal substring, letter case ignored, and a term with
a dot does not: the search of `alice` for "a.c" returns her entry titled "abc". -/
theorem searchEntries_by_pattern (lower : String → String) (eng : Engine)
    (hsort : eng.Reorders) (hread : eng.ReadsDots) (user : User) (qs : String)
    (tags : Option String) (s : Store) (hqs : qs ≠ "")
    (htags : tags = none ∨ tags = some "") :
    (∀ test : String → Bool, eng.regex qs = some test →
      ∃ entries : List Entry,
        searchEntries lower eng user (some qs) tags s =
          (⟨200, .found entries entries.length⟩, s) ∧
        entries.Perm (s.filter fun e =>
          e.author == user._id && (test e.title || test e.content)) ∧
        ∀ e : Entry, e ∈ entries ↔
          (e ∈ s ∧ e.author = user._id ∧ (test e.title = true ∨ test e.content = true))) ∧
    (isDotPattern qs = true →
      ∃ entries : List Entry,
        searchEntries lower eng user (some qs) tags s =
          (⟨200, .found entries entries.length⟩, s) ∧
        (∀ e ∈ entries, e ∈ s ∧ e.author = user._id) ∧
        (∀ e : Entry, isAscii e.title = true → isAscii e.content = true →
          (e ∈ entries ↔
            (e ∈ s ∧ e.author = user._id ∧
              (matchAnywhere qs.data e.title.data = true ∨
                matchAnywhere qs.data e.content.data = true)))) ∧
        ((∀ c ∈ qs.data, c.toNat ≠ 46) →
          ∀ e : Entry, isAscii e.title = true → isAscii e.content = true →
            (e ∈ entries ↔
              (e ∈ s ∧ e.author = user._id ∧
                (literalMatch qs e.title = true ∨ literalMatch qs e.content = true))))) ∧
    (∃ entries : List Entry,
      searchEntries lower eng alice (some "a.c") none taggedStore =
        (⟨200, .found entries entries.length⟩, taggedStore) ∧
      ((⟨20, "abc", "zzz", ["a"], 1, false, 0, 110, 110⟩ : Entry) ∈ entries) ∧
      literalMatch "a.c" "abc" = false ∧ literalMatch "a.c" "zzz" = false) := by
  refine ⟨fun test hre => searchEntries_compiled eng hsort user qs tags s hqs htags test hre,
    ?_, ?_⟩
  · intro hpat
    obtain ⟨entries, hrun, hown, hdot⟩ :=
      searchEntries_dots eng hsort hread user qs tags s hqs htags hpat
    refine ⟨entries, hrun, hown, hdot, ?_⟩
    intro hnodot e ht hc
    rw [hdot e ht hc, literalMatch_eq qs e.title hnodot, literalMatch_eq qs e.content hnodot]
  · obtain ⟨entries, hrun, _, hdot⟩ :=
      searchEntries_dots eng hsort hread alice "a.c" none taggedStore (by decide)
        (Or.inl rfl) (by decide)
    have hrun2 : searchEntries lower eng alice (some "a.c") none taggedStore =
        (⟨200, .found entries entries.length⟩, taggedStore) := hrun
    refine ⟨entries, hrun2, ?_, by decide, by decide⟩
    exact (hdot _ (by decide) (by decide)).2 (by decide)

/-- Witness for the amended C18: with the database of the examples, the search of
`alice` for "plan" finds her entry titled "Plan" and not her entry titled "abc". -/
theorem searchEntries_by_pattern_witness :
    dotEngine.Reorders ∧ dotEngine.ReadsDots ∧ isDotPattern "plan" = true ∧
    ∃ entries : List Entry,
      searchEntries asciiLower dotEngine alice (some "plan") none taggedStore =
        (⟨200, .found entries entries.length⟩, taggedStore) ∧
      ((⟨21, "Plan", "a.c", ["c", "q"], 1, false, 0, 111, 111⟩ : Entry) ∈ entries) ∧
      ((⟨20, "abc", "zzz", ["a"], 1, false, 0, 110, 110⟩ : Entry) ∉ entries) := by
  refine ⟨dotEngine_reorders, dotEngine_readsDots, by decide, ?_⟩
  obtain ⟨entries, h1, _, _, h4⟩ :=
    (searchEntries_by_pattern asciiLower dotEngine dotEngine_reorders dotEngine_readsDots alice
      "plan" none taggedStore (by decide) (Or.inl rfl)).2.1 (by decide)
  refine ⟨entries, h1, ?_, ?_⟩
  · exact (h4 (by decide) _ (by decide) (by decide)).2 (by decide)
  · intro hmem
    have := ((h4 (by decide) _ (by decide) (by decide)).1 hmem).2.2
    exact absurd this (by decide)

/-! ## Pagination -/

theorem div_eq_ceil (count limit : Nat) (hl : 1 ≤ limit) :
    (count + limit - 1) / limit = ⌈(count : ℚ) / (limit : ℚ)⌉₊ := by
  have hlq : (0 : ℚ) < (limit : ℚ) := by exact_mod_cast hl
  have hdm := Nat.div_add_mod (count + limit - 1) limit
  have hmod := Nat.mod_lt (count + limit - 1) hl
  set k := (count + limit - 1) / limit with hk
  apply le_antisymm
  · rcases Nat.eq_zero_or_pos k with h0 | hpos
    · rw [h0]; exact Nat.zero_le _
    · have hlt : k - 1 < ⌈(count : ℚ) / (limit : ℚ)⌉₊ := by
        rw [Nat.lt_ceil, lt_div_iff₀ hlq]
        have h1 : (k - 1) * limit < count := by
          have h2 : limit * k = limit * (k - 1) + limit := by
            conv_lhs => rw [show k = (k - 1) + 1 from by omega]
            ring
          rw [Nat.mul_comm (k - 1) limit]
          omega
        exact_mod_cast h1
      omega
  · rw [Nat.ceil_le, div_le_iff₀ hlq]
    have h1 : count ≤ k * limit := by
      rw [Nat.mul_comm]
      omega
    exact_mod_cast h1

theorem totalPages_eq_ceil (count limit : Nat) (hl : 1 ≤ limit) :
    totalPages count limit = some ⌈(count : ℚ) / (limit : ℚ)⌉₊ := by
  have hne : ¬ limit = 0 := by omega
  simp only [totalPages, if_neg hne, div_eq_ceil count limit hl]

theorem findByAuthor_length (s : Store) (author : Nat) :
    (findByAuthor s author).length = s.countP fun e => e.author == author := by
  simp [findByAuthor, List.countP_eq_length_filter]

theorem paginate_ok (eng : Engine) (errorText : String) (page limit : Nat) (sort : String)
    (docs : List Entry) (hp : 1 ≤ page) (hl : 1 ≤ limit) :
    paginate eng errorText page limit sort docs =
      ⟨200, .page (((eng.sort sort docs).drop ((page - 1) * limit)).take limit)
        (some ⌈(docs.length : ℚ) / (limit : ℚ)⌉₊) page docs.length⟩ := by
  have hpage : ¬ (page = 0 ∧ limit ≠ 0) := fun h => by omega
  have hne : ¬ limit = 0 := by omega
  simp only [paginate, if_neg hpage, slice, if_neg hne, totalPages_eq_ceil docs.length limit hl]

theorem adminListEntries_admin (eng : Engine) {admin : User} (hadmin : admin.role = "admin")
    (page limit : Option Nat) (sort : Option String) (s : Store) :
    adminListEntries eng admin page limit sort s =
      (paginate eng "Error fetching entries" (page.getD 1) (limit.getD 20)
        (sort.getD "-createdAt") s, s) := by
  simp [adminListEntries, adminAuth, hadmin]

/-- C19: for a page of at least 1 and a limit of at least 1, the owner listing is
answered 200 with `totalEntries` the number of stored entries authored by the
principal and the admin listing (asked by an admin) with `totalEntries` the number
of all stored entries, neither depending on the page, and `totalPages` is the
ceiling of `totalEntries / limit`; an omitted page stands for 1 and an omitted
limit for 10 in the owner listing and 20 in the admin listing. -/
theorem listing_totals (eng : Engine) (user admin : User) (hadmin : admin.role = "admin")
    (page limit : Nat) (sort : Option String) (s : Store) (hp : 1 ≤ page) (hl : 1 ≤ limit) :
    (∃ entries : List Entry,
      listEntries eng user (some page) (some limit) sort s =
        (⟨200, .page entries
          (some ⌈((s.countP fun e => e.author == user._id : ℕ) : ℚ) / (limit : ℚ)⌉₊) page
          (s.countP fun e => e.author == user._id)⟩, s)) ∧
    (∃ entries : List Entry,
      adminListEntries eng admin (some page) (some limit) sort s =
        (⟨200, .page entries (some ⌈(s.length : ℚ) / (limit : ℚ)⌉₊) page s.length⟩, s)) ∧
    listEntries eng user none none sort s = listEntries eng user (some 1) (some 10) sort s ∧
    adminListEntries eng admin none none sort s =
      adminListEntries eng admin (some 1) (some 20) sort s := by
  refine ⟨⟨((eng.sort (sort.getD "-createdAt") (findByAuthor s user._id)).drop
      ((page - 1) * limit)).take limit, ?_⟩,
    ⟨((eng.sort (sort.getD "-createdAt") s).drop ((page - 1) * limit)).take limit, ?_⟩,
    rfl, rfl⟩
  · show (paginate eng "Error fetching entries" page limit (sort.getD "-createdAt")
      (findByAuthor s user._id), s) = _
    rw [paginate_ok eng _ page limit _ _ hp hl, findByAuthor_length]
  · rw [adminListEntries_admin eng hadmin]
    show (paginate eng "Error fetching entries" page limit (sort.getD "-createdAt") s, s) = _
    rw [paginate_ok eng _ page limit _ _ hp hl]

/-- Witness for C19: page 2 with limit 2 of the three entries of `alice`, and of
the four entries of the store for the admin `carol`: two pages in both cases. -/
theorem listing_totals_witness :
    (∃ entries : List Entry,
      listEntries plainEngine alice (some 2) (some 2) none taggedStore =
        (⟨200, .page entries
          (some ⌈((taggedStore.countP fun e => e.author == alice._id : ℕ) : ℚ) / ((2 : ℕ) : ℚ)⌉₊)
          2 (taggedStore.countP fun e => e.author == alice._id)⟩, taggedStore)) ∧
    (taggedStore.countP fun e => e.author == alice._id) = 3 ∧
    (listEntries plainEngine alice (some 2) (some 2) none taggedStore).1 =
      ⟨200, .page [⟨22, "Other", "text", ["d"], 1, true, 0, 112, 112⟩] (some 2) 2 3⟩ :=
  ⟨(listing_totals plainEngine alice carol (by decide) 2 2 none taggedStore (by decide)
    (by decide)).1, by decide, by decide⟩

theorem paginate_beyond (eng : Engine) (hsort : eng.Reorders) (errorText : String)
    (page limit : Nat) (sort : String) (docs : List Entry) (hl : 1 ≤ limit)
    (hbeyond : ⌈(docs.length : ℚ) / (limit : ℚ)⌉₊ < page) :
    paginate eng errorText page limit sort docs =
      ⟨200, .page [] (some ⌈(docs.length : ℚ) / (limit : ℚ)⌉₊) page docs.length⟩ := by
  have hp : 1 ≤ page := by omega
  rw [paginate_ok eng errorText page limit sort docs hp hl]
  have hlen : (eng.sort sort docs).length = docs.length := (hsort sort docs).length_eq
  rw [← div_eq_ceil docs.length limit hl] at hbeyond
  have hdm := Nat.div_add_mod (docs.length + limit - 1) limit
  have hmod := Nat.mod_lt (docs.length + limit - 1) hl
  have hskip : docs.length ≤ (page - 1) * limit := by
    have h1 : (docs.length + limit - 1) / limit * limit ≤ (page - 1) * limit :=
      Nat.mul_le_mul_right limit (by omega)
    rw [Nat.mul_comm ((docs.length + limit - 1) / limit) limit] at h1
    omega
  have hdrop : (eng.sort sort docs).drop ((page - 1) * limit) = [] :=
    List.drop_eq_nil_of_le (by omega)
  rw [hdrop, List.take_nil]

/-- C20: when the database ordering only reorders, for a limit of at least 1 and a
page beyond `totalPages` (the ceiling of `totalEntries / limit`), the owner listing
and the admin listing (asked by an admin) are answered 200 with an empty list of
entries, the same `totalPages` and `totalEntries` as on any page, and the store as
it was. -/
theorem listing_beyond_last_page (eng : Engine) (hsort : eng.Reorders) (user admin : User)
    (hadmin : admin.role = "admin") (page limit : Nat) (sort : Option String) (s : Store)
    (hl : 1 ≤ limit) :
    (⌈((s.countP fun e => e.author == user._id : ℕ) : ℚ) / (limit : ℚ)⌉₊ < page →
      listEntries eng user (some page) (some limit) sort s =
        (⟨200, .page []
          (some ⌈((s.countP fun e => e.author == user._id : ℕ) : ℚ) / (limit : ℚ)⌉₊) page
          (s.countP fun e => e.author == user._id)⟩, s)) ∧
    (⌈(s.length : ℚ) / (limit : ℚ)⌉₊ < page →
      adminListEntries eng admin (some page) (some limit) sort s =
        (⟨200, .page [] (some ⌈(s.length : ℚ) / (limit : ℚ)⌉₊) page s.length⟩, s)) := by
  constructor
  · intro hb
    rw [← findByAuthor_length] at hb ⊢
    show (paginate eng "Error fetching entries" page limit (sort.getD "-createdAt")
      (findByAuthor s user._id), s) = _
    rw [paginate_beyond eng hsort _ page limit _ _ hl hb]
  · intro hb
    rw [adminListEntries_admin eng hadmin]
    show (paginate eng "Error fetching entries" page limit (sort.getD "-createdAt") s, s) = _
    rw [paginate_beyond eng hsort _ page limit _ _ hl hb]

/-- Witness for C20: the four entries of the store with limit 3 make two pages, and
page 3 of the admin listing is empty. -/
theorem listing_beyond_last_page_witness :
    ⌈(taggedStore.length : ℚ) / ((3 : ℕ) : ℚ)⌉₊ < 3 ∧
    adminListEntries plainEngine carol (some 3) (some 3) none taggedStore =
      (⟨200, .page [] (some ⌈(taggedStore.length : ℚ) / ((3 : ℕ) : ℚ)⌉₊) 3
        taggedStore.length⟩, taggedStore) ∧
    (adminListEntries plainEngine carol (some 3) (some 3) none taggedStore).1 =
      ⟨200, .page [] (some 2) 3 4⟩ := by
  have hb : ⌈(taggedStore.length : ℚ) / ((3 : ℕ) : ℚ)⌉₊ < 3 := by
    rw [← div_eq_ceil taggedStore.length 3 (by decide)]
    decide
  exact ⟨hb,
    (listing_beyond_last_page plainEngine plainEngine_reorders alice carol (by decide) 3 3 none
      taggedStore (by decide)).2 hb,
    by decide⟩

/-! ## Role update -/

theorem findUserById_id {us : Users} {id : Nat} {u : User} (h : findUserById us id = some u) :
    u._id = id := by
  induction us with
  | nil => simp [findUserById] at h
  | cons x xs ih =>
    by_cases hx : x._id = id
    · simp [findUserById, hx] at h
      subst h
      exact hx
    · simp [findUserById, hx] at h
      exact ih h

theorem findUserById_saveUser_self {us : Users} {id : Nat} {u : User} (doc : User)
    (h : findUserById us id = some u) (hid : doc._id = id) :
    findUserById (saveUser doc us) id = some doc := by
  induction us with
  | nil => simp [findUserById] at h
  | cons x xs ih =>
    by_cases hx : x._id = id
    · simp [saveUser, findUserById, hx, hid]
    · simp [findUserById, hx] at h
      simp [saveUser, findUserById, hx, hid, ih h]

theorem findUserById_saveUser_other (doc : User) (us : Users) {id : Nat} (hid : id ≠ doc._id) :
    findUserById (saveUser doc us) id = findUserById us id := by
  induction us with
  | nil => simp [saveUser]
  | cons x xs ih =>
    by_cases hx : x._id = doc._id
    · have h1 : ¬ x._id = id := fun h => hid (h ▸ hx)
      have h2 : ¬ doc._id = id := fun h => hid h.symm
      simp [saveUser, findUserById, hx, h1, h2]
    · by_cases hy : x._id = id
      · simp only [saveUser, findUserById, if_neg hx, if_pos hy]
      · simp only [saveUser, findUserById, if_neg hx, if_neg hy, ih]

theorem map_id_saveUser (doc : User) (us : Users) :
    (saveUser doc us).map User._id = us.map User._id := by
  induction us with
  | nil => simp [saveUser]
  | cons x xs ih =>
    by_cases hx : x._id = doc._id
    · simp [saveUser, hx]
    · simp [saveUser, hx, ih]

theorem updateUserRole_invalid {admin : User} (hadmin : admin.role = "admin") (id : Nat)
    {role : Option String} (users : Users) (hr : role ≠ some "user" ∧ role ≠ some "admin") :
    updateUserRole admin id role users = (⟨400, .message "Invalid role"⟩, users) := by
  cases role with
  | none => simp [updateUserRole, adminAuth, hadmin]
  | some r =>
    have h1 : ¬ r = "user" := fun h => hr.1 (congrArg some h)
    have h2 : ¬ r = "admin" := fun h => hr.2 (congrArg some h)
    simp [updateUserRole, adminAuth, hadmin, h1, h2]

theorem updateUserRole_absent {admin : User} (hadmin : admin.role = "admin") {id : Nat}
    {r : String} {users : Users} (hr : r = "user" ∨ r = "admin")
    (h : findUserById users id = none) :
    updateUserRole admin id (some r) users = (⟨404, .message "User not found"⟩, users) := by
  rcases hr with hr | hr <;> simp [updateUserRole, adminAuth, hadmin, hr, h]

theorem updateUserRole_done {admin : User} (hadmin : admin.role = "admin") {id : Nat}
    {r : String} {users : Users} {u : User} (hr : r = "user" ∨ r = "admin")
    (h : findUserById users id = some u) :
    updateUserRole admin id (some r) users =
      (⟨200, .messageUser "User role updated successfully" { u with role := r }⟩,
        saveUser { u with role := r } users) := by
  rcases hr with hr | hr <;> simp [updateUserRole, adminAuth, hadmin, hr, h]

/-- C21: asked by an admin, the role update is answered 400 "Invalid role", with
the users collection left as it was, exactly when the supplied role is not the
string `user` nor the string `admin` (a missing role included); with one of the two
and a stored user, the user is stored with the supplied role and its other fields as
they were, the response carries it, and every other identifier is looked up as
before; with one of the two and no such user the answer is 404 and the collection is
left as it was. -/
theorem updateUserRole_spec (admin : User) (hadmin : admin.role = "admin") (id : Nat)
    (role : Option String) (users : Users) :
    ((updateUserRole admin id role users).1.status = 400 ↔
      (role ≠ some "user" ∧ role ≠ some "admin")) ∧
    (role ≠ some "user" ∧ role ≠ some "admin" →
      updateUserRole admin id role users = (⟨400, .message "Invalid role"⟩, users)) ∧
    (∀ r : String, role = some r → (r = "user" ∨ r = "admin") →
      (∀ u : User, findUserById users id = some u →
        updateUserRole admin id role users =
          (⟨200, .messageUser "User role updated successfully" { u with role := r }⟩,
            saveUser { u with role := r } users) ∧
        findUserById (updateUserRole admin id role users).2 id = some { u with role := r } ∧
        (∀ other : Nat, other ≠ id →
          findUserById (updateUserRole admin id role users).2 other =
            findUserById users other) ∧
        (updateUserRole admin id role users).2.map User._id = users.map User._id) ∧
      (findUserById users id = none →
        updateUserRole admin id role users = (⟨404, .message "User not found"⟩, users))) := by
  have hvalid : ∀ r : String, role = some r → (r = "user" ∨ r = "admin") →
      (updateUserRole admin id role users).1.status ≠ 400 := by
    intro r hrole hr
    subst hrole
    cases h : findUserById users id with
    | none =>
      rw [updateUserRole_absent hadmin hr h]
      simp
    | some u =>
      rw [updateUserRole_done hadmin hr h]
      simp
  refine ⟨?_, updateUserRole_invalid hadmin id users, ?_⟩
  · constructor
    · intro hst
      constructor
      · intro hrole
        exact hvalid "user" hrole (Or.inl rfl) hst
      · intro hrole
        exact hvalid "admin" hrole (Or.inr rfl) hst
    · intro hr
      rw [updateUserRole_invalid hadmin id users hr]
  · intro r hrole hr
    subst hrole
    constructor
    · intro u h
      have hid1 : u._id = id := findUserById_id h
      have hid : ({ u with role := r } : User)._id = id := hid1
      rw [updateUserRole_done hadmin hr h]
      refine ⟨rfl, findUserById_saveUser_self _ h hid, ?_, map_id_saveUser _ users⟩
      intro other ho
      exact findUserById_saveUser_other _ users (by rw [hid]; exact ho)
    · intro h
      exact updateUserRole_absent hadmin hr h

/-- Witness for C21: the admin `carol` makes `bob` an admin; the role "Admin" is
refused; an unknown user gives 404. -/
theorem updateUserRole_spec_witness :
    carol.role = "admin" ∧
    updateUserRole carol 2 (some "admin") sampleUsers =
      (⟨200, .messageUser "User role updated successfully"
          ⟨2, "bob", "bob@example.org", "admin"⟩⟩,
        [alice, ⟨2, "bob", "bob@example.org", "admin"⟩, carol]) ∧
    updateUserRole carol 2 (some "Admin") sampleUsers =
      (⟨400, .message "Invalid role"⟩, sampleUsers) ∧
    updateUserRole carol 9 (some "user") sampleUsers =
      (⟨404, .message "User not found"⟩, sampleUsers) :=
  ⟨by decide, by decide,
    (updateUserRole_spec carol (by decide) 2 (some "Admin") sampleUsers).2.1
      ⟨by decide, by decide⟩,
    ((updateUserRole_spec carol (by decide) 9 (some "user") sampleUsers).2.2 "user" rfl
      (Or.inl rfl)).2 (by decide)⟩

/-! ## An end-to-end trace -/

/-- C22: for two distinct users A and B, any store and a fresh identifier: A creates
the private entry with title "T", content "C" and tags `["x"]` (201); a read by A is
answered 200 with `views` 1; a read by B is answered 403 and the stored counter
stays 1; A's update with `isPublic` true is answered 200; a read by B is then
answered 200 with `views` 2. The requests are made at the times `now`, `t1`, `t2`,
`t3`, `t4`, and the stored tag is the lowercased "x". -/
theorem end_to_end_trace (lower : String → String) (a b : User) (newId now t1 t2 t3 t4 : Nat)
    (s : Store) (hab : a._id ≠ b._id) (hfresh : findById s newId = none) :
    ∃ s1 s2 s3 s4 : Store,
      createEntry lower a newId now ⟨some "T", some "C", some ["x"], some false, none⟩ s =
        (⟨201, .messageEntry "Entry created successfully"
          (some ⟨newId, "T", "C", [lower "x"], a._id, false, 0, now, now⟩)⟩, s1) ∧
      getEntry t1 a newId s1 =
        (⟨200, .entry ⟨newId, "T", "C", [lower "x"], a._id, false, 1, now, t1⟩⟩, s2) ∧
      getEntry t2 b newId s2 = (⟨403, .message "Access denied"⟩, s2) ∧
      viewsOf s2 newId = some 1 ∧
      updateEntry lower t3 a newId ⟨none, none, none, some true, none⟩ s2 =
        (⟨200, .messageEntry "Entry updated successfully"
          (some ⟨newId, "T", "C", [lower "x"], a._id, true, 1, now, t3⟩)⟩, s3) ∧
      getEntry t4 b newId s3 =
        (⟨200, .entry ⟨newId, "T", "C", [lower "x"], a._id, true, 2, now, t4⟩⟩, s4) ∧
      viewsOf s4 newId = some 2 := by
  have hvc : (validateCreate ⟨some "T", some "C", some ["x"], some false, none⟩).2 = [] := by
    decide
  have hnew : newEntry lower a newId now
      (validateCreate ⟨some "T", some "C", some ["x"], some false, none⟩).1 =
      ⟨newId, "T", "C", [lower "x"], a._id, false, 0, now, now⟩ := by
    have hx : jsTrim "x" = "x" := by decide
    have ht : jsTrim "T" = "T" := by decide
    have hc : jsTrim "C" = "C" := by decide
    simp [newEntry, validateCreate, requiredField, processTags, hx, ht, hc]
  have hcreate : createEntry lower a newId now
      ⟨some "T", some "C", some ["x"], some false, none⟩ s = _ :=
    createEntry_created a now hvc hfresh
  rw [hnew] at hcreate
  have hf1 : findById (s ++ [⟨newId, "T", "C", [lower "x"], a._id, false, 0, now, now⟩]) newId =
      some ⟨newId, "T", "C", [lower "x"], a._id, false, 0, now, now⟩ := by
    rw [findById_append_of_none _ hfresh]
    simp [findById]
  have hread1 : getEntry t1 a newId _ = _ := getEntry_allowed a hf1 (Or.inl rfl)
  have hf2 := findById_save_self
    (⟨newId, "T", "C", [lower "x"], a._id, false, 1, now, t1⟩ : Entry) hf1 rfl
  have hread2 : getEntry t2 b newId _ = _ := getEntry_denied b hf2 hab rfl
  have hvu : (validateUpdate ⟨none, none, none, some true, none⟩).2 = [] := by decide
  have hupd : updateEntry lower t3 a newId ⟨none, none, none, some true, none⟩ _ = _ :=
    updateEntry_allowed a hvu hf2 rfl
  have happ : touch t3 (applyUpdate lower (validateUpdate ⟨none, none, none, some true, none⟩).1
      ⟨newId, "T", "C", [lower "x"], a._id, false, 1, now, t1⟩) =
      ⟨newId, "T", "C", [lower "x"], a._id, true, 1, now, t3⟩ := by
    simp [touch, applyUpdate, validateUpdate, optionalField, truthy]
  rw [happ] at hupd
  have hf3 := findById_save_self
    (⟨newId, "T", "C", [lower "x"], a._id, true, 1, now, t3⟩ : Entry) hf2 rfl
  rw [hf3] at hupd
  have hread3 : getEntry t4 b newId _ = _ := getEntry_allowed b hf3 (Or.inr rfl)
  have hf4 := findById_save_self
    (⟨newId, "T", "C", [lower "x"], a._id, true, 2, now, t4⟩ : Entry) hf3 rfl
  refine ⟨_, _, _, _, hcreate, hread1, hread2, ?_, hupd, hread3, ?_⟩
  · simp only [viewsOf]
    rw [hf2]
    rfl
  · simp only [viewsOf]
    rw [hf4]
    rfl

/-- Witness for C22: the trace with `alice` as A and `bob` as B on the sample store,
at the times 200 to 204; the last read by `bob` returns the entry with `views` 2. -/
theorem end_to_end_trace_witness :
    alice._id ≠ bob._id ∧ findById sampleStore 12 = none ∧
    ∃ s1 s2 s3 s4 : Store,
      createEntry asciiLower alice 12 200
          ⟨some "T", some "C", some ["x"], some false, none⟩ sampleStore =
        (⟨201, .messageEntry "Entry created successfully"
          (some ⟨12, "T", "C", [asciiLower "x"], alice._id, false, 0, 200, 200⟩)⟩, s1) ∧
      getEntry 201 alice 12 s1 =
        (⟨200, .entry ⟨12, "T", "C", [asciiLower "x"], alice._id, false, 1, 200, 201⟩⟩, s2) ∧
      getEntry 202 bob 12 s2 = (⟨403, .message "Access denied"⟩, s2) ∧
      viewsOf s2 12 = some 1 ∧
      updateEntry asciiLower 203 alice 12 ⟨none, none, none, some true, none⟩ s2 =
        (⟨200, .messageEntry "Entry updated successfully"
          (some ⟨12, "T", "C", [asciiLower "x"], alice._id, true, 1, 200, 203⟩)⟩, s3) ∧
      getEntry 204 bob 12 s3 =
        (⟨200, .entry ⟨12, "T", "C", [asciiLower "x"], alice._id, true, 2, 200, 204⟩⟩, s4) ∧
      viewsOf s4 12 = some 2 :=
  ⟨by decide, by decide,
    end_to_end_trace asciiLower alice bob 12 200 201 202 203 204 sampleStore (by decide)
      (by decide)⟩

/-! ## Pages of a listing -/

theorem pages_concat (limit : Nat) (n : Nat) :
    ∀ l : List Entry, l.length ≤ n * limit →
      (List.range n).flatMap (fun i => (l.drop (i * limit)).take limit) = l := by
  induction n with
  | zero =>
    intro l hlen
    have h0 : l.length = 0 := by omega
    simp [List.length_eq_zero.1 h0]
  | succ n ih =>
    intro l hlen
    have hrest : (l.drop limit).length ≤ n * limit := by
      rw [List.length_drop]
      have : (n + 1) * limit = n * limit + limit := by ring
      omega
    have hshift : ∀ i : Nat, (l.drop ((i + 1) * limit)).take limit =
        ((l.drop limit).drop (i * limit)).take limit := by
      intro i
      rw [List.drop_drop]
      have : (i + 1) * limit = limit + i * limit := by ring
      rw [this]
    rw [List.range_succ_eq_map, List.flatMap_cons, List.flatMap_map]
    simp only [Nat.succ_eq_add_one, hshift, Nat.zero_mul, List.drop_zero]
    rw [ih (l.drop limit) hrest, List.take_append_drop]

theorem entriesOf_paginate (eng : Engine) (errorText : String) (page limit : Nat) (sort : String)
    (docs : List Entry) (hp : 1 ≤ page) (hl : 1 ≤ limit) :
    entriesOf (paginate eng errorText page limit sort docs) =
      ((eng.sort sort docs).drop ((page - 1) * limit)).take limit := by
  rw [paginate_ok eng errorText page limit sort docs hp hl]
  rfl

theorem paginate_pages (eng : Engine) (hsort : eng.Reorders) (errorText : String)
    (limit : Nat) (sort : String) (docs : List Entry) (hl : 1 ≤ limit) :
    (∀ page : Nat, 1 ≤ page →
      entriesOf (paginate eng errorText page limit sort docs) =
        ((eng.sort sort docs).drop ((page - 1) * limit)).take limit ∧
      (entriesOf (paginate eng errorText page limit sort docs)).length ≤ limit ∧
      ∀ i : Nat, i < limit →
        (entriesOf (paginate eng errorText page limit sort docs))[i]? =
          (eng.sort sort docs)[(page - 1) * limit + i]?) ∧
    (List.range ⌈(docs.length : ℚ) / (limit : ℚ)⌉₊).flatMap
      (fun i => entriesOf (paginate eng errorText (i + 1) limit sort docs)) =
        eng.sort sort docs := by
  constructor
  · intro page hp
    rw [entriesOf_paginate eng errorText page limit sort docs hp hl]
    refine ⟨rfl, List.length_take_le _ _, ?_⟩
    intro i hi
    rw [List.getElem?_take, if_pos hi, List.getElem?_drop]
  · have hpage : ∀ i : Nat, entriesOf (paginate eng errorText (i + 1) limit sort docs) =
        ((eng.sort sort docs).drop (i * limit)).take limit := by
      intro i
      rw [entriesOf_paginate eng errorText (i + 1) limit sort docs (by omega) hl]
      rfl
    simp only [hpage]
    apply pages_concat limit
    rw [(hsort sort docs).length_eq, ← div_eq_ceil docs.length limit hl]
    have hdm := Nat.div_add_mod (docs.length + limit - 1) limit
    have hmod := Nat.mod_lt (docs.length + limit - 1) hl
    rw [Nat.mul_comm]
    omega

/-- C23: when the database ordering only reorders, for a limit of at least 1 and a
given sort key, in the owner listing and in the admin listing (asked by an admin):
page `p ≥ 1` is the run of `limit` consecutive entries of the sorted filtered list
that starts at position `(p - 1) * limit` (cut short by the end of the list), so it
holds at most `limit` entries; and the pages 1, 2, ..., `totalPages`, one after the
other, make up the sorted filtered list, which is a rearrangement of the filtered
entries: none is missing and none comes twice. -/
theorem listing_pages (eng : Engine) (hsort : eng.Reorders) (user admin : User)
    (hadmin : admin.role = "admin") (limit : Nat) (sort : Option String) (s : Store)
    (hl : 1 ≤ limit) :
    ((∀ page : Nat, 1 ≤ page →
        entriesOf (listEntries eng user (some page) (some limit) sort s).1 =
          ((eng.sort (sort.getD "-createdAt") (findByAuthor s user._id)).drop
            ((page - 1) * limit)).take limit ∧
        (entriesOf (listEntries eng user (some page) (some limit) sort s).1).length ≤ limit ∧
        ∀ i : Nat, i < limit →
          (entriesOf (listEntries eng user (some page) (some limit) sort s).1)[i]? =
            (eng.sort (sort.getD "-createdAt") (findByAuthor s user._id))[(page - 1) * limit + i]?) ∧
      (List.range ⌈((s.countP fun e => e.author == user._id : ℕ) : ℚ) / (limit : ℚ)⌉₊).flatMap
        (fun i => entriesOf (listEntries eng user (some (i + 1)) (some limit) sort s).1) =
          eng.sort (sort.getD "-createdAt") (findByAuthor s user._id) ∧
      (eng.sort (sort.getD "-createdAt") (findByAuthor s user._id)).Perm
        (s.filter fun e => e.author == user._id)) ∧
    ((∀ page : Nat, 1 ≤ page →
        entriesOf (adminListEntries eng admin (some page) (some limit) sort s).1 =
          ((eng.sort (sort.getD "-createdAt") s).drop ((page - 1) * limit)).take limit ∧
        (entriesOf (adminListEntries eng admin (some page) (some limit) sort s).1).length ≤
          limit ∧
        ∀ i : Nat, i < limit →
          (entriesOf (adminListEntries eng admin (some page) (some limit) sort s).1)[i]? =
            (eng.sort (sort.getD "-createdAt") s)[(page - 1) * limit + i]?) ∧
      (List.range ⌈(s.length : ℚ) / (limit : ℚ)⌉₊).flatMap
        (fun i => entriesOf (adminListEntries eng admin (some (i + 1)) (some limit) sort s).1) =
          eng.sort (sort.getD "-createdAt") s ∧
      (eng.sort (sort.getD "-createdAt") s).Perm s) := by
  have hown := paginate_pages eng hsort "Error fetching entries" limit
    (sort.getD "-createdAt") (findByAuthor s user._id) hl
  have hall := paginate_pages eng hsort "Error fetching entries" limit
    (sort.getD "-createdAt") s hl
  have hadm : ∀ page : Nat,
      (adminListEntries eng admin (some page) (some limit) sort s).1 =
        paginate eng "Error fetching entries" page limit (sort.getD "-createdAt") s := by
    intro page
    rw [adminListEntries_admin eng hadmin]
    rfl
  rw [findByAuthor_length] at hown
  refine ⟨⟨hown.1, hown.2, hsort _ _⟩, ⟨?_, ?_, hsort _ _⟩⟩
  · intro page hp
    rw [hadm page]
    exact hall.1 page hp
  · simp only [hadm]
    exact hall.2

/-- Witness for C23: with limit 2, the two pages of the listing of `alice` hold her
entries 20, 21 and then 22, and together they make up the sorted list. -/
theorem listing_pages_witness :
    entriesOf (listEntries plainEngine alice (some 1) (some 2) none taggedStore).1 =
      [⟨20, "abc", "zzz", ["a"], 1, false, 0, 110, 110⟩,
        ⟨21, "Plan", "a.c", ["c", "q"], 1, false, 0, 111, 111⟩] ∧
    entriesOf (listEntries plainEngine alice (some 2) (some 2) none taggedStore).1 =
      [⟨22, "Other", "text", ["d"], 1, true, 0, 112, 112⟩] ∧
    (entriesOf (listEntries plainEngine alice (some 2) (some 2) none taggedStore).1).length ≤ 2 :=
  ⟨by decide, by decide,
    ((listing_pages plainEngine plainEngine_reorders alice carol (by decide) 2 none taggedStore
      (by decide)).1.1 2 (by decide)).2.1⟩

end Hexsopedia
